import Mathlib

/-!
# Routing matrix of the pico-usb-midi-interface firmware (`main.c`)

A shallow embedding of the routing tables of `main.c`, of the operations
`init_routes`, `is_port_valid`, `route`, `unroute`, `is_routed`, `connect`,
`disconnect` and `is_connected`, and of the dispatch cycle `midi_task` with
`send_to_connected`, `poll_midi_uarts_rx`, `poll_usb_rx` and
`drain_serial_port_tx_buffers`.

Conventions of the embedding.

* A `uint8_t` is a `Nat`; stores into a `uint8_t` are reduced `% 256`.
  Port tokens are character codes: `'1' = 49`, `'8' = 56`, `'A' = 65`,
  `'F' = 70`, `'G' = 71`, `'H' = 72`, `'a' = 97`, `'z' = 122`.
* A C array is a `List`; every array access is bounds checked and an access
  outside the array makes the operation return `none` (the C program has
  undefined behaviour there).  A result `some _` therefore means that the C
  function ran without leaving any array.
* The global tables `usb_routes`, `pio_routes`, `hw_routes` are the three
  fields of `Routes`, passed explicitly through every operation.
* `NUM_PIOS`, `CFG_TUD_MIDI_NUMCABLES_IN` and `CFG_TUD_MIDI_NUMCABLES_OUT`
  come from headers that are not part of `main.c`; they are the fields of
  `Config`.
* The USB stack and the UART libraries are not part of `main.c` either; their
  functions are the fields of `Extern`. A dispatch cycle threads the list of
  `Effect`s (polls, writes, drop reports, drains) it has caused so far, and
  every outside function may answer depending on that list.
-/

namespace MidiRouter

/-- Build constants that `main.c` takes from the SDK and from `tusb_config.h`. -/
structure Config where
  NUM_PIOS : Nat
  CFG_TUD_MIDI_NUMCABLES_IN : Nat
  CFG_TUD_MIDI_NUMCABLES_OUT : Nat
deriving DecidableEq, Repr

/-- `NUM_PIO_MIDI_UARTS`: 4 when `NUM_PIOS == 2`, otherwise 6 (main.c 62-66). -/
def NUM_PIO_MIDI_UARTS (cfg : Config) : Nat :=
  if cfg.NUM_PIOS = 2 then 4 else 6

/-- `NUM_HW_MIDI_UARTS` (main.c 67). -/
def NUM_HW_MIDI_UARTS : Nat := 2

/-- The struct `midi_input_routes_t` (main.c 105-112): three destination
lists and their live counts. -/
structure midi_input_routes_t where
  pio_uart_number_list : List Nat
  hw_uart_number_list : List Nat
  usb_midi_cable_list : List Nat
  num_pio_uart_routes : Nat
  num_hw_uart_routes : Nat
  num_usb_midi_routes : Nat
deriving DecidableEq, Repr

/-- The three global route tables (main.c 113-115). -/
structure Routes where
  usb_routes : List midi_input_routes_t
  pio_routes : List midi_input_routes_t
  hw_routes : List midi_input_routes_t
deriving DecidableEq, Repr

/-- Bounds-checked array store `a[i] = v`. -/
def store {α : Type} (a : List α) (i : Nat) (v : α) : Option (List α) :=
  if i < a.length then some (a.set i v) else none

/-- A zero-filled `midi_input_routes_t`, as left by `memset`. -/
def zero_routes (cfg : Config) : midi_input_routes_t :=
  { pio_uart_number_list := List.replicate (NUM_PIO_MIDI_UARTS cfg) 0
    hw_uart_number_list := List.replicate NUM_HW_MIDI_UARTS 0
    usb_midi_cable_list := List.replicate cfg.CFG_TUD_MIDI_NUMCABLES_OUT 0
    num_pio_uart_routes := 0
    num_hw_uart_routes := 0
    num_usb_midi_routes := 0 }

/-- The three `memset` calls of `init_routes` (main.c 122-124). -/
def zero_tables (cfg : Config) : Routes :=
  { usb_routes := List.replicate cfg.CFG_TUD_MIDI_NUMCABLES_IN (zero_routes cfg)
    pio_routes := List.replicate (NUM_PIO_MIDI_UARTS cfg) (zero_routes cfg)
    hw_routes := List.replicate NUM_HW_MIDI_UARTS (zero_routes cfg) }

/-- Body of the first loop of `init_routes` (main.c 127-130) at index `idx`. -/
def init_pio_step (st : Routes) (idx : Nat) : Option Routes :=
  match st.usb_routes[idx]? with
  | none => none
  | some u =>
    match store u.pio_uart_number_list 0 ((idx + 65) % 256) with
    | none => none
    | some l =>
      match store st.usb_routes idx
          { u with pio_uart_number_list := l, num_pio_uart_routes := 1 } with
      | none => none
      | some usb =>
        match st.pio_routes[idx]? with
        | none => none
        | some p =>
          match store p.usb_midi_cable_list 0 ((idx + 49) % 256) with
          | none => none
          | some l2 =>
            match store st.pio_routes idx
                { p with usb_midi_cable_list := l2, num_usb_midi_routes := 1 } with
            | none => none
            | some pio => some { st with usb_routes := usb, pio_routes := pio }

/-- Body of the second loop of `init_routes` (main.c 133-137) at index `idx`. -/
def init_hw_step (cfg : Config) (st : Routes) (idx : Nat) : Option Routes :=
  let jdx := idx + NUM_PIO_MIDI_UARTS cfg
  match st.usb_routes[jdx]? with
  | none => none
  | some u =>
    match store u.hw_uart_number_list 0 ((idx + 71) % 256) with
    | none => none
    | some l =>
      match store st.usb_routes jdx
          { u with hw_uart_number_list := l, num_hw_uart_routes := 1 } with
      | none => none
      | some usb =>
        match st.hw_routes[idx]? with
        | none => none
        | some h =>
          match store h.usb_midi_cable_list 0 ((jdx + 49) % 256) with
          | none => none
          | some l2 =>
            match store st.hw_routes idx
                { h with usb_midi_cable_list := l2, num_usb_midi_routes := 1 } with
            | none => none
            | some hw => some { st with usb_routes := usb, hw_routes := hw }

/-- The loop `for (idx = 0; idx < n; idx++) body(idx)`: the first `n`
iterations are the first `n - 1` iterations followed by `body (n - 1)`. -/
def for_loop (body : Routes → Nat → Option Routes) (st : Routes) : Nat → Option Routes
  | 0 => some st
  | n + 1 =>
    match for_loop body st n with
    | none => none
    | some s => body s n

/-- `init_routes` (main.c 120-139). -/
def init_routes (cfg : Config) : Option Routes :=
  match for_loop init_pio_step (zero_tables cfg) (NUM_PIO_MIDI_UARTS cfg) with
  | none => none
  | some st => for_loop (init_hw_step cfg) st NUM_HW_MIDI_UARTS

/-- `toupper` of the C library in the "C" locale. -/
def toupper (c : Nat) : Nat :=
  if 97 ≤ c ∧ c ≤ 122 then c - 32 else c

/-- `is_port_valid` (main.c 141-153). -/
def is_port_valid (cfg : Config) (port : Nat) : Bool :=
  if 49 ≤ port ∧ port ≤ 56 then
    decide (port - 49 < cfg.CFG_TUD_MIDI_NUMCABLES_IN)
  else
    let port := toupper port
    (decide (65 ≤ port) && decide (port ≤ 70)
        && decide (port - 65 < NUM_PIO_MIDI_UARTS cfg))
      || decide (port = 71) || decide (port = 72)

/-- The search loop shared by `route`, `unroute` and `is_routed`:
`for (idx = start; idx < start + k; idx++) if (list[idx] == out) ...`.
`some (some idx)` is the first index holding `out`, `some none` means the
loop ran to the end, `none` means the loop left the array. -/
def scan (list : List Nat) (out : Nat) : Nat → Nat → Option (Option Nat)
  | 0, _ => some none
  | k + 1, idx =>
    match list[idx]? with
    | none => none
    | some v => if v = out then some (some idx) else scan list out k (idx + 1)

/-- One branch of `route` (main.c 158-166, 169-177, 180-188) on the list
`list` with live count `num` and capacity constant `cap`. -/
def route_list (cap : Nat) (list : List Nat) (num out : Nat) :
    Option (List Nat × Nat × Bool) :=
  match scan list out num 0 with
  | none => none
  | some (some _) => some (list, num, true)
  | some none =>
    if num ≥ cap then some (list, num, false)
    else
      match store list num out with
      | none => none
      | some l => some (l, (num + 1) % 256, true)

/-- One branch of `unroute` (main.c 199-204, 207-212, 215-220):
`list[idx] = list[num--]`. -/
def unroute_list (list : List Nat) (num out : Nat) :
    Option (List Nat × Nat × Bool) :=
  match scan list out num 0 with
  | none => none
  | some none => some (list, num, false)
  | some (some idx) =>
    match list[num]? with
    | none => none
    | some v =>
      match store list idx v with
      | none => none
      | some l => some (l, (num + 255) % 256, true)

/-- One branch of `is_routed` (main.c 228-232, 235-239, 242-246). -/
def is_routed_list (list : List Nat) (num out : Nat) : Option Bool :=
  match scan list out num 0 with
  | none => none
  | some none => some false
  | some (some _) => some true

/-- `route` (main.c 155-194). -/
def route (cfg : Config) (route : midi_input_routes_t) (out : Nat) :
    Option (midi_input_routes_t × Bool) :=
  if out ≤ 56 then
    match route_list cfg.CFG_TUD_MIDI_NUMCABLES_IN route.usb_midi_cable_list
        route.num_usb_midi_routes out with
    | none => none
    | some (l, n, b) =>
      some ({ route with usb_midi_cable_list := l, num_usb_midi_routes := n }, b)
  else if out ≤ 70 then
    match route_list (NUM_PIO_MIDI_UARTS cfg) route.pio_uart_number_list
        route.num_pio_uart_routes out with
    | none => none
    | some (l, n, b) =>
      some ({ route with pio_uart_number_list := l, num_pio_uart_routes := n }, b)
  else if out ≤ 72 then
    match route_list NUM_HW_MIDI_UARTS route.hw_uart_number_list
        route.num_hw_uart_routes out with
    | none => none
    | some (l, n, b) =>
      some ({ route with hw_uart_number_list := l, num_hw_uart_routes := n }, b)
  else some (route, false)

/-- `unroute` (main.c 196-223). -/
def unroute (route : midi_input_routes_t) (out : Nat) :
    Option (midi_input_routes_t × Bool) :=
  if out ≤ 56 then
    match unroute_list route.usb_midi_cable_list route.num_usb_midi_routes out with
    | none => none
    | some (l, n, b) =>
      some ({ route with usb_midi_cable_list := l, num_usb_midi_routes := n }, b)
  else if out ≤ 70 then
    match unroute_list route.pio_uart_number_list route.num_pio_uart_routes out with
    | none => none
    | some (l, n, b) =>
      some ({ route with pio_uart_number_list := l, num_pio_uart_routes := n }, b)
  else if out ≤ 72 then
    match unroute_list route.hw_uart_number_list route.num_hw_uart_routes out with
    | none => none
    | some (l, n, b) =>
      some ({ route with hw_uart_number_list := l, num_hw_uart_routes := n }, b)
  else some (route, false)

/-- `is_routed` (main.c 225-249). -/
def is_routed (route : midi_input_routes_t) (out : Nat) : Option Bool :=
  if out ≤ 56 then
    is_routed_list route.usb_midi_cable_list route.num_usb_midi_routes out
  else if out ≤ 70 then
    is_routed_list route.pio_uart_number_list route.num_pio_uart_routes out
  else if out ≤ 72 then
    is_routed_list route.hw_uart_number_list route.num_hw_uart_routes out
  else some false

/-- Apply `f` to the struct `table[i]` through a pointer: the struct is
replaced by the one `f` leaves behind. -/
def at_index (table : List midi_input_routes_t) (i : Nat)
    (f : midi_input_routes_t → Option (midi_input_routes_t × Bool)) :
    Option (List midi_input_routes_t × Bool) :=
  match table[i]? with
  | none => none
  | some r =>
    match f r with
    | none => none
    | some (r2, b) => some (table.set i r2, b)

/-- `connect` (main.c 256-271). -/
def connect (cfg : Config) (st : Routes) (inp out : Nat) : Option (Routes × Bool) :=
  if is_port_valid cfg inp && is_port_valid cfg out then
    if inp ≤ 56 then
      match at_index st.usb_routes (inp - 49) (fun r => route cfg r out) with
      | none => none
      | some (t, b) => some ({ st with usb_routes := t }, b)
    else if inp ≤ 70 then
      match at_index st.pio_routes (inp - 65) (fun r => route cfg r out) with
      | none => none
      | some (t, b) => some ({ st with pio_routes := t }, b)
    else
      match at_index st.hw_routes (inp - 71) (fun r => route cfg r out) with
      | none => none
      | some (t, b) => some ({ st with hw_routes := t }, b)
  else some (st, false)

/-- `disconnect` (main.c 273-288). -/
def disconnect (cfg : Config) (st : Routes) (inp out : Nat) : Option (Routes × Bool) :=
  if is_port_valid cfg inp && is_port_valid cfg out then
    if inp ≤ 56 then
      match at_index st.usb_routes (inp - 49) (fun r => unroute r out) with
      | none => none
      | some (t, b) => some ({ st with usb_routes := t }, b)
    else if inp ≤ 70 then
      match at_index st.pio_routes (inp - 65) (fun r => unroute r out) with
      | none => none
      | some (t, b) => some ({ st with pio_routes := t }, b)
    else
      match at_index st.hw_routes (inp - 71) (fun r => unroute r out) with
      | none => none
      | some (t, b) => some ({ st with hw_routes := t }, b)
  else some (st, false)

/-- The struct `table[i]` read through a pointer. -/
def read_index (table : List midi_input_routes_t) (i : Nat)
    (f : midi_input_routes_t → Option Bool) : Option Bool :=
  match table[i]? with
  | none => none
  | some r => f r

/-- `is_connected` (main.c 290-305). -/
def is_connected (cfg : Config) (st : Routes) (inp out : Nat) : Option Bool :=
  if is_port_valid cfg inp && is_port_valid cfg out then
    if inp ≤ 56 then read_index st.usb_routes (inp - 49) (fun r => is_routed r out)
    else if inp ≤ 70 then read_index st.pio_routes (inp - 65) (fun r => is_routed r out)
    else read_index st.hw_routes (inp - 71) (fun r => is_routed r out)
  else some false

/-- An administrative call, as issued by `connectFn` and `disconnectFn`. -/
inductive Cmd where
  | connect (inp out : Nat)
  | disconnect (inp out : Nat)
deriving DecidableEq, Repr

/-- Run one administrative call, keeping its boolean result. -/
def step (cfg : Config) (st : Routes) : Cmd → Option (Routes × Bool)
  | Cmd.connect i o => connect cfg st i o
  | Cmd.disconnect i o => disconnect cfg st i o

/-- Run a sequence of administrative calls, collecting the results. -/
def run (cfg : Config) (st : Routes) : List Cmd → Option (Routes × List Bool)
  | [] => some (st, [])
  | c :: cs =>
    match step cfg st c with
    | none => none
    | some (s, b) =>
      match run cfg s cs with
      | none => none
      | some (s2, bs) => some (s2, b :: bs)

/-- Run a sequence of administrative calls from the state left by `init_routes`. -/
def boot_run (cfg : Config) (cmds : List Cmd) : Option (Routes × List Bool) :=
  match init_routes cfg with
  | none => none
  | some st => run cfg st cmds

/-- The build for a chip with two PIO blocks: 4 software UARTs, 2 hardware
UARTs, 6 USB cables each way ("6-IN 6-OUT", main.c 341). -/
def cfg6 : Config :=
  { NUM_PIOS := 2, CFG_TUD_MIDI_NUMCABLES_IN := 6, CFG_TUD_MIDI_NUMCABLES_OUT := 6 }

/-- The build for a chip with three PIO blocks: 6 software UARTs, 2 hardware
UARTs, 8 USB cables each way ("8-IN 8-OUT", main.c 339). -/
def cfg8 : Config :=
  { NUM_PIOS := 3, CFG_TUD_MIDI_NUMCABLES_IN := 8, CFG_TUD_MIDI_NUMCABLES_OUT := 8 }

/-- Port Addressing as the specification words it: a digit naming one of the
`U` USB cables, or a letter (either case) inside one contiguous range of
`P + H` letters starting at `'A'`. -/
def contiguous_valid (cfg : Config) (t : Nat) : Prop :=
  (49 ≤ t ∧ t ≤ 57 ∧ t - 49 < cfg.CFG_TUD_MIDI_NUMCABLES_IN) ∨
  (65 ≤ toupper t ∧ toupper t < 65 + NUM_PIO_MIDI_UARTS cfg + NUM_HW_MIDI_UARTS)

/-- The tokens `main.c` documents (main.c 253, 622-628): a digit `'1'..'8'`
naming one of the USB cables, one of the first `NUM_PIO_MIDI_UARTS` letters
from `'A'`, or `'G'` or `'H'`; each letter in upper or lower case. -/
def documented_valid (cfg : Config) (t : Nat) : Prop :=
  (49 ≤ t ∧ t ≤ 56 ∧ t - 49 < cfg.CFG_TUD_MIDI_NUMCABLES_IN) ∨
  (∃ c, (t = c ∨ t = c + 32) ∧
    ((65 ≤ c ∧ c < 65 + NUM_PIO_MIDI_UARTS cfg) ∨ c = 71 ∨ c = 72))

/-- The three kinds of port. -/
inductive Kind where
  | usb
  | pio
  | hw
deriving DecidableEq, Repr

/-- First token of each kind (main.c 253-254): `'1'` for USB cable 0, `'A'`
for software (PIO) UART 0, `'G'` for hardware UART 0. -/
def Kind.base : Kind → Nat
  | Kind.usb => 49
  | Kind.pio => 65
  | Kind.hw => 71

/-- Number of ports of each kind; for a destination kind this is also the
capacity constant `route` compares the live count with. -/
def Kind.count (cfg : Config) : Kind → Nat
  | Kind.usb => cfg.CFG_TUD_MIDI_NUMCABLES_IN
  | Kind.pio => NUM_PIO_MIDI_UARTS cfg
  | Kind.hw => NUM_HW_MIDI_UARTS

/-- The token of port `i` of kind `k`. -/
def token (k : Kind) (i : Nat) : Nat := k.base + i

/-- The tokens of all ports of kind `k`, in ascending order. -/
def kind_tokens (cfg : Config) (k : Kind) : List Nat :=
  (List.range (k.count cfg)).map (token k)

/-- The route table indexed by inputs of kind `k`. -/
def table (st : Routes) : Kind → List midi_input_routes_t
  | Kind.usb => st.usb_routes
  | Kind.pio => st.pio_routes
  | Kind.hw => st.hw_routes

/-- Replace the route table of kind `k`. -/
def set_table (st : Routes) (k : Kind) (t : List midi_input_routes_t) : Routes :=
  match k with
  | Kind.usb => { st with usb_routes := t }
  | Kind.pio => { st with pio_routes := t }
  | Kind.hw => { st with hw_routes := t }

/-- The destination list of kind `k` in a `midi_input_routes_t`. -/
def list_of (r : midi_input_routes_t) : Kind → List Nat
  | Kind.usb => r.usb_midi_cable_list
  | Kind.pio => r.pio_uart_number_list
  | Kind.hw => r.hw_uart_number_list

/-- The live count of kind `k` in a `midi_input_routes_t`. -/
def count_of (r : midi_input_routes_t) : Kind → Nat
  | Kind.usb => r.num_usb_midi_routes
  | Kind.pio => r.num_pio_uart_routes
  | Kind.hw => r.num_hw_uart_routes

/-- Replace the destination list and live count of kind `k`. -/
def set_kind (r : midi_input_routes_t) (k : Kind) (l : List Nat) (n : Nat) :
    midi_input_routes_t :=
  match k with
  | Kind.usb => { r with usb_midi_cable_list := l, num_usb_midi_routes := n }
  | Kind.pio => { r with pio_uart_number_list := l, num_pio_uart_routes := n }
  | Kind.hw => { r with hw_uart_number_list := l, num_hw_uart_routes := n }

/-- The live entries of kind `k`: the entries below the live count. -/
def live (r : midi_input_routes_t) (k : Kind) : List Nat :=
  (list_of r k).take (count_of r k)

/-- The list of kind `k` is in order for filling: the live count and the
capacity are within the array, the live entries are pairwise different and
each one is the token of a port of kind `k`. -/
def row_ok (cfg : Config) (r : midi_input_routes_t) (k : Kind) : Prop :=
  count_of r k ≤ (list_of r k).length ∧
  k.count cfg ≤ (list_of r k).length ∧
  (live r k).Nodup ∧
  ∀ x, x ∈ live r k → x ∈ kind_tokens cfg k

/-- The states the firmware can be in: the state left by `init_routes` and
every state reached from it by `connect` and `disconnect` calls. -/
inductive Reachable (cfg : Config) : Routes → Prop where
  | boot (st : Routes) : init_routes cfg = some st → Reachable cfg st
  | call (st st2 : Routes) (c : Cmd) (b : Bool) :
      Reachable cfg st → step cfg st c = some (st2, b) → Reachable cfg st2

/-- Every live count of the struct is at most the port count of its kind. -/
def counts_bounded (cfg : Config) (r : midi_input_routes_t) : Prop :=
  ∀ k : Kind, count_of r k ≤ Kind.count cfg k

/-- The port counts fit the tables and the token alphabet: every hardware
and software UART has a USB cable to pair with (`init_routes` indexes
`usb_routes` up to `NUM_PIO_MIDI_UARTS + NUM_HW_MIDI_UARTS - 1`), the cables
are named by `'1'..'8'`, and `usb_midi_cable_list` has room for every cable
that `is_port_valid` accepts. -/
def well_sized (cfg : Config) : Prop :=
  NUM_PIO_MIDI_UARTS cfg + NUM_HW_MIDI_UARTS ≤ cfg.CFG_TUD_MIDI_NUMCABLES_IN ∧
  cfg.CFG_TUD_MIDI_NUMCABLES_IN ≤ 8 ∧
  cfg.CFG_TUD_MIDI_NUMCABLES_IN ≤ cfg.CFG_TUD_MIDI_NUMCABLES_OUT

/-- What `init_routes` leaves in `usb_routes[k]`. -/
def usb_default (cfg : Config) (k : Nat) : midi_input_routes_t :=
  if k < NUM_PIO_MIDI_UARTS cfg then
    { zero_routes cfg with
      pio_uart_number_list := (List.replicate (NUM_PIO_MIDI_UARTS cfg) 0).set 0 (65 + k)
      num_pio_uart_routes := 1 }
  else if k < NUM_PIO_MIDI_UARTS cfg + NUM_HW_MIDI_UARTS then
    { zero_routes cfg with
      hw_uart_number_list :=
        (List.replicate NUM_HW_MIDI_UARTS 0).set 0 (71 + (k - NUM_PIO_MIDI_UARTS cfg))
      num_hw_uart_routes := 1 }
  else zero_routes cfg

/-- What `init_routes` leaves in `pio_routes[k]`. -/
def pio_default (cfg : Config) (k : Nat) : midi_input_routes_t :=
  { zero_routes cfg with
    usb_midi_cable_list := (List.replicate cfg.CFG_TUD_MIDI_NUMCABLES_OUT 0).set 0 (49 + k)
    num_usb_midi_routes := 1 }

/-- What `init_routes` leaves in `hw_routes[j]`. -/
def hw_default (cfg : Config) (j : Nat) : midi_input_routes_t :=
  { zero_routes cfg with
    usb_midi_cable_list :=
      (List.replicate cfg.CFG_TUD_MIDI_NUMCABLES_OUT 0).set 0
        (49 + (NUM_PIO_MIDI_UARTS cfg + j))
    num_usb_midi_routes := 1 }

/-- What `init_routes` leaves in the table entry of input `i` of kind `ks`. -/
def row_default (cfg : Config) (ks : Kind) (i : Nat) : midi_input_routes_t :=
  match ks with
  | Kind.usb => usb_default cfg i
  | Kind.pio => pio_default cfg i
  | Kind.hw => hw_default cfg i

/-- The routing matrix after `init_routes`, in closed form. -/
def default_routes (cfg : Config) : Routes :=
  { usb_routes := (List.range cfg.CFG_TUD_MIDI_NUMCABLES_IN).map (usb_default cfg)
    pio_routes := (List.range (NUM_PIO_MIDI_UARTS cfg)).map (pio_default cfg)
    hw_routes := (List.range NUM_HW_MIDI_UARTS).map (hw_default cfg) }

/-- The default pairing of the specification: software UART `k` with USB
cable `k`, hardware UART `j` with USB cable `P + j`, both directions. -/
def default_edge (cfg : Config) (ks : Kind) (i : Nat) (kd : Kind) (j : Nat) : Prop :=
  (ks = Kind.usb ∧ kd = Kind.pio ∧ i = j ∧ j < NUM_PIO_MIDI_UARTS cfg) ∨
  (ks = Kind.pio ∧ kd = Kind.usb ∧ j = i ∧ i < NUM_PIO_MIDI_UARTS cfg) ∨
  (ks = Kind.usb ∧ kd = Kind.hw ∧ i = NUM_PIO_MIDI_UARTS cfg + j ∧ j < NUM_HW_MIDI_UARTS) ∨
  (ks = Kind.hw ∧ kd = Kind.usb ∧ j = NUM_PIO_MIDI_UARTS cfg + i ∧ i < NUM_HW_MIDI_UARTS)

/-- What one dispatch cycle does to the outside world, in the order it does
it. `poll k idx bytes`: the receive path of input `idx` of kind `k` was asked
for data and delivered `bytes` (for `Kind.usb` this is one
`tud_midi_demux_stream_read`, `idx` the cable it reported). `write k dest chunk
accepted`: `chunk` was offered to the transmit path of output `dest` of kind
`k`, which took `accepted` bytes. `log dropped port`: the `TU_LOG1` warning of
`send_to_connected` (`TU_LOG1` is a macro of the USB stack, not of `main.c`; it
is taken to emit the report). `drain k idx`: the transmit path of UART `idx`
was serviced. -/
inductive Effect where
  | poll (k : Kind) (idx : Nat) (bytes : List Nat)
  | write (k : Kind) (dest : Nat) (chunk : List Nat) (accepted : Nat)
  | log (dropped : Nat) (port : Nat)
  | drain (k : Kind) (idx : Nat)
deriving DecidableEq, Repr

/-- The functions `main.c` calls in the USB stack and in the two UART
libraries (none of them is part of `main.c`). What such a call returns may
depend on everything that happened before, so each one takes the effects so
far. A UART object `pio_midi_uarts[i]` or `hw_midi_uarts[i]` is named by its
index `i`. A poll or read returns the bytes it stored at the start of the
buffer it was given; their number is the C return value. -/
structure Extern where
  tud_midi_mounted : List Effect → Bool
  pio_midi_uart_poll_rx_buffer : List Effect → Nat → Nat → List Nat
  midi_uart_poll_rx_buffer : List Effect → Nat → Nat → List Nat
  tud_midi_demux_stream_read : List Effect → Nat → Nat × List Nat
  tud_midi_stream_write : List Effect → Nat → List Nat → Nat
  pio_midi_uart_write_tx_buffer : List Effect → Nat → List Nat → Nat
  midi_uart_write_tx_buffer : List Effect → Nat → List Nat → Nat

/-- The write function `send_to_connected` uses for destinations of kind `k`
(main.c 404, 410, 416). -/
def ext_write (ext : Extern) : Kind → List Effect → Nat → List Nat → Nat
  | Kind.usb => ext.tud_midi_stream_write
  | Kind.pio => ext.pio_midi_uart_write_tx_buffer
  | Kind.hw => ext.midi_uart_write_tx_buffer

/-- The poll function `poll_midi_uarts_rx` uses for inputs of kind `k`
(main.c 429, 433); inputs of kind `usb` are not polled there. -/
def ext_poll (ext : Extern) : Kind → List Effect → Nat → Nat → List Nat
  | Kind.usb => fun _ _ _ => []
  | Kind.pio => ext.pio_midi_uart_poll_rx_buffer
  | Kind.hw => ext.midi_uart_poll_rx_buffer

/-- The first argument of the write call for the list entry `e` (main.c 404,
410, 416): the cable number `e - '1'` passed as a `uint8_t`, or the UART
object `pio_midi_uarts[e - 'A']`, `hw_midi_uarts[e - 'G']`; an index outside
the UART array gives `none`. -/
def dest_index (cfg : Config) (k : Kind) (e : Nat) : Option Nat :=
  match k with
  | Kind.usb => some ((e + 256 - 49) % 256)
  | Kind.pio => if 65 ≤ e ∧ e - 65 < NUM_PIO_MIDI_UARTS cfg then some (e - 65) else none
  | Kind.hw => if 71 ≤ e ∧ e - 71 < NUM_HW_MIDI_UARTS then some (e - 71) else none

/-- The `uint32_t` value of `nread - nwritten` printed by `TU_LOG1`
(main.c 406, 412, 418). -/
def dropped_count (nread nwritten : Nat) : Nat :=
  (nread + 4294967296 - nwritten) % 4294967296

/-- One of the three loops of `send_to_connected` (main.c 403-408, 409-414,
415-420) over the list `list` of kind `k`: `n` iterations starting at index
`idx`. Each iteration offers the first `nread` bytes of `rx` once and logs
when the returned count differs from `nread`. -/
def send_loop (ext : Extern) (cfg : Config) (k : Kind) (list rx : List Nat) (nread : Nat) :
    Nat → Nat → List Effect → Option (List Effect)
  | 0, _, tr => some tr
  | n + 1, idx, tr =>
    match list[idx]? with
    | none => none
    | some e =>
      match dest_index cfg k e with
      | none => none
      | some d =>
        let nwritten := ext_write ext k tr d (rx.take nread) % 4294967296
        let tr1 := tr ++ [Effect.write k d (rx.take nread) nwritten]
        let tr2 :=
          if nwritten ≠ nread then tr1 ++ [Effect.log (dropped_count nread nwritten) e]
          else tr1
        send_loop ext cfg k list rx nread n (idx + 1) tr2

/-- `send_to_connected` (main.c 399-422). `rx` is the receive buffer, `nread`
the `uint8_t` byte count; a count beyond the buffer gives `none`. -/
def send_to_connected (ext : Extern) (cfg : Config) (routes : midi_input_routes_t)
    (rx : List Nat) (nread : Nat) (connected : Bool) (tr : List Effect) :
    Option (List Effect) :=
  if nread > 0 then
    if nread ≤ rx.length then
      match send_loop ext cfg Kind.usb routes.usb_midi_cable_list rx nread
          (if connected then routes.num_usb_midi_routes else 0) 0 tr with
      | none => none
      | some tr1 =>
        match send_loop ext cfg Kind.pio routes.pio_uart_number_list rx nread
            routes.num_pio_uart_routes 0 tr1 with
        | none => none
        | some tr2 =>
          send_loop ext cfg Kind.hw routes.hw_uart_number_list rx nread
            routes.num_hw_uart_routes 0 tr2
    else none
  else some tr

/-- The receive buffer after a poll stored `bytes` at its start; a poll that
stores more than the buffer holds gives `none`. -/
def fill (rx bytes : List Nat) : Option (List Nat) :=
  if bytes.length ≤ rx.length then some (bytes ++ rx.drop bytes.length) else none

/-- One of the two loops of `poll_midi_uarts_rx` (main.c 428-431, 432-435)
over the inputs of kind `k`: the first `n` iterations. The state is the trace
and the receive buffer `rx`, which is shared by all iterations. -/
def poll_loop (ext : Extern) (cfg : Config) (st : Routes) (k : Kind) (connected : Bool)
    (tr : List Effect) (rx : List Nat) : Nat → Option (List Effect × List Nat)
  | 0 => some (tr, rx)
  | n + 1 =>
    match poll_loop ext cfg st k connected tr rx n with
    | none => none
    | some (tr1, rx1) =>
      let bytes := ext_poll ext k tr1 n rx1.length
      match fill rx1 bytes with
      | none => none
      | some rx2 =>
        match (table st k)[n]? with
        | none => none
        | some routes =>
          match send_to_connected ext cfg routes rx2 (bytes.length % 256) connected
              (tr1 ++ [Effect.poll k n bytes]) with
          | none => none
          | some tr2 => some (tr2, rx2)

/-- `poll_midi_uarts_rx` (main.c 423-436); `rx` is the content of the
uninitialised local buffer `uint8_t rx[48]`. -/
def poll_midi_uarts_rx (ext : Extern) (cfg : Config) (st : Routes) (connected : Bool)
    (rx : List Nat) (tr : List Effect) : Option (List Effect) :=
  match poll_loop ext cfg st Kind.pio connected tr rx (NUM_PIO_MIDI_UARTS cfg) with
  | none => none
  | some (tr1, rx1) =>
    match poll_loop ext cfg st Kind.hw connected tr1 rx1 NUM_HW_MIDI_UARTS with
    | none => none
    | some (tr2, _) => some tr2

/-- The read loop of `poll_usb_rx` (main.c 447-451) with at most `fuel`
reads; `none` also when the reads do not run dry within `fuel`. -/
def usb_read_loop (ext : Extern) (cfg : Config) (st : Routes) (connected : Bool) :
    Nat → List Nat → List Effect → Option (List Effect)
  | 0, _, _ => none
  | fuel + 1, rx, tr =>
    let res := ext.tud_midi_demux_stream_read tr rx.length
    match fill rx res.2 with
    | none => none
    | some rx1 =>
      let tr1 := tr ++ [Effect.poll Kind.usb res.1 res.2]
      if res.2.length % 4294967296 > 0 then
        match st.usb_routes[res.1 % 256]? with
        | none => none
        | some routes =>
          match send_to_connected ext cfg routes rx1 (res.2.length % 256) connected tr1 with
          | none => none
          | some tr2 => usb_read_loop ext cfg st connected fuel rx1 tr2
      else some tr1

/-- `poll_usb_rx` (main.c 438-452). -/
def poll_usb_rx (ext : Extern) (cfg : Config) (st : Routes) (connected : Bool)
    (fuel : Nat) (rx : List Nat) (tr : List Effect) : Option (List Effect) :=
  if !connected then some tr
  else usb_read_loop ext cfg st connected fuel rx tr

/-- `drain_serial_port_tx_buffers` (main.c 454-463). -/
def drain_serial_port_tx_buffers (cfg : Config) (tr : List Effect) : List Effect :=
  tr ++ (List.range (NUM_PIO_MIDI_UARTS cfg)).map (Effect.drain Kind.pio)
    ++ (List.range NUM_HW_MIDI_UARTS).map (Effect.drain Kind.hw)

/-- `midi_task` (main.c 464-470): one dispatch cycle. `rx_uart` and `rx_usb`
are the contents of the two uninitialised receive buffers, `fuel` bounds the
number of USB reads. -/
def midi_task (ext : Extern) (cfg : Config) (st : Routes) (rx_uart rx_usb : List Nat)
    (fuel : Nat) (tr : List Effect) : Option (List Effect) :=
  let connected := ext.tud_midi_mounted tr
  match poll_midi_uarts_rx ext cfg st connected rx_uart tr with
  | none => none
  | some tr1 =>
    match poll_usb_rx ext cfg st connected fuel rx_usb tr1 with
    | none => none
    | some tr2 => some (drain_serial_port_tx_buffers cfg tr2)


/-- The list of kind `k` can be dispatched from: the live count is within the
array and every live entry is the token of a port of kind `k`. -/
def row_in_range (cfg : Config) (r : midi_input_routes_t) (k : Kind) : Prop :=
  count_of r k ≤ (list_of r k).length ∧ ∀ x, x ∈ live r k → x ∈ kind_tokens cfg k

/-- The tables have one entry per input port and every list in them can be
dispatched from. -/
def dispatch_ok (cfg : Config) (st : Routes) : Prop :=
  ∀ ks : Kind, (table st ks).length = Kind.count cfg ks ∧
    ∀ r, r ∈ table st ks → ∀ kd, row_in_range cfg r kd

/-- The polls and reads respect the buffer size they are given. -/
def polls_bounded (ext : Extern) : Prop :=
  ∀ (tr : List Effect) (idx n : Nat),
    (ext.pio_midi_uart_poll_rx_buffer tr idx n).length ≤ n ∧
    (ext.midi_uart_poll_rx_buffer tr idx n).length ≤ n ∧
    (ext.tud_midi_demux_stream_read tr n).2.length ≤ n

/-- The destinations a chunk from the RouteSet `r` goes to, in the order of
`send_to_connected`: the USB cables only while the USB MIDI interface is
mounted, then the software UARTs, then the hardware UARTs. -/
def gated_dests (connected : Bool) (r : midi_input_routes_t) : List (Kind × Nat) :=
  (if connected then (live r Kind.usb).map (fun e => (Kind.usb, e)) else [])
    ++ (live r Kind.pio).map (fun e => (Kind.pio, e))
    ++ (live r Kind.hw).map (fun e => (Kind.hw, e))

/-- The fan-out write policy of the specification: each destination is
offered the whole chunk once; when it takes a different number of bytes than
offered, one drop report with the difference follows; there is no retry. -/
def fan_out (ext : Extern) (chunk : List Nat) :
    List (Kind × Nat) → List Effect → List Effect
  | [], tr => tr
  | (k, e) :: ds, tr =>
    let accepted := ext_write ext k tr (e - k.base) chunk % 4294967296
    fan_out ext chunk ds
      (tr ++ Effect.write k (e - k.base) chunk accepted ::
        (if accepted ≠ chunk.length then
          [Effect.log (dropped_count chunk.length accepted) e]
        else []))

/-- The write attempts to output `d` of kind `k` in a trace: the chunk
offered and the number of bytes taken, in order. -/
def writes_to (k : Kind) (d : Nat) : List Effect → List (List Nat × Nat)
  | [] => []
  | Effect.write k2 d2 c n :: tr =>
    if k2 = k ∧ d2 = d then (c, n) :: writes_to k d tr else writes_to k d tr
  | _ :: tr => writes_to k d tr

/-- The drop reports for the port with token `port` in a trace: the reported
byte counts, in order. -/
def drops_for (port : Nat) : List Effect → List Nat
  | [] => []
  | Effect.log c p :: tr => if p = port then c :: drops_for port tr else drops_for port tr
  | _ :: tr => drops_for port tr

/-- What the effects `new` of the UART phase of one cycle must look like when
the mount flag is `mounted`: every UART input is polled; a non-empty chunk
delivered by an input is written to every destination of that input's
RouteSet (the USB cables only when mounted); and every write offers exactly
the chunk that a poll of this cycle delivered, to a destination of the
RouteSet of the polled input. -/
def fans_out (cfg : Config) (st : Routes) (mounted : Bool) (new : List Effect) : Prop :=
  (∀ k idx, k ≠ Kind.usb → idx < Kind.count cfg k → ∃ b, Effect.poll k idx b ∈ new) ∧
  (∀ k idx b r, Effect.poll k idx b ∈ new → b ≠ [] → (table st k)[idx]? = some r →
    ∀ kd e, (kd = Kind.usb → mounted = true) → e ∈ live r kd →
      ∃ n, Effect.write kd (e - kd.base) b n ∈ new) ∧
  (∀ kd d c n, Effect.write kd d c n ∈ new →
    c ≠ [] ∧ (kd = Kind.usb → mounted = true) ∧
    ∃ k idx r e, Effect.poll k idx c ∈ new ∧ (table st k)[idx]? = some r ∧
      e ∈ live r kd ∧ d = e - kd.base)

/-- A zero-filled receive buffer `uint8_t rx[48]`. -/
def rx_zero : List Nat := List.replicate 48 0

/-- An outside world for examples: the USB MIDI interface is not mounted,
software UART 0 has the three bytes of a note-on pending, nothing else has
data, and every transmit path takes at most two bytes per write. -/
def ext_idle : Extern :=
  { tud_midi_mounted := fun _ => false
    pio_midi_uart_poll_rx_buffer := fun _ idx n => if idx = 0 then [144, 60, 100].take n else []
    midi_uart_poll_rx_buffer := fun _ _ _ => []
    tud_midi_demux_stream_read := fun _ _ => (0, [])
    tud_midi_stream_write := fun _ _ c => min c.length 2
    pio_midi_uart_write_tx_buffer := fun _ _ c => min c.length 2
    midi_uart_write_tx_buffer := fun _ _ c => min c.length 2 }

/-- The same outside world with the USB MIDI interface mounted. -/
def ext_host : Extern :=
  { ext_idle with tud_midi_mounted := fun _ => true }


/-! ## The search loop -/

theorem scan_store_end (l : List Nat) (o : Nat) :
    ∀ (k i : Nat), scan l o k i = some none → i + k < l.length →
      scan (l.set (i + k) o) o (k + 1) i = some (some (i + k)) := by
  intro k
  induction k with
  | zero =>
    intro i _ hlt
    simp only [Nat.add_zero] at hlt ⊢
    simp [scan, List.getElem?_set_self hlt]
  | succ k ih =>
    intro i h hlt
    rw [scan] at h
    cases hv : l[i]? with
    | none => simp [hv] at h
    | some v =>
      simp only [hv] at h
      by_cases hvo : v = o
      · simp [hvo] at h
      · simp only [hvo, if_false] at h
        have hne : i + (k + 1) ≠ i := by omega
        have h2 := ih (i + 1) h (by omega)
        have e : i + 1 + k = i + (k + 1) := by omega
        rw [e] at h2
        rw [scan, List.getElem?_set_ne hne, hv]
        simp only [hvo, if_false]
        exact h2

/-! ## One list: a second `route` with the same destination changes nothing -/

theorem route_list_twice (cap : Nat) (hcap : cap ≤ 255) (l : List Nat) (n o : Nat)
    (l2 : List Nat) (n2 : Nat) (b : Bool)
    (h : route_list cap l n o = some (l2, n2, b)) :
    route_list cap l2 n2 o = some (l2, n2, b) := by
  unfold route_list at h
  cases hs : scan l o n 0 with
  | none => simp [hs] at h
  | some r =>
    cases r with
    | some idx =>
      simp only [hs, Option.some.injEq, Prod.mk.injEq] at h
      obtain ⟨rfl, rfl, rfl⟩ := h
      simp [route_list, hs]
    | none =>
      simp only [hs] at h
      by_cases hc : n ≥ cap
      · simp only [hc, if_true, Option.some.injEq, Prod.mk.injEq] at h
        obtain ⟨rfl, rfl, rfl⟩ := h
        simp [route_list, hs, hc]
      · simp only [hc, if_false] at h
        unfold store at h
        by_cases hlen : n < l.length
        · simp only [hlen, if_true, Option.some.injEq, Prod.mk.injEq] at h
          obtain ⟨rfl, rfl, rfl⟩ := h
          have hn : (n + 1) % 256 = n + 1 := Nat.mod_eq_of_lt (by omega)
          have hfound := scan_store_end l o n 0 hs (by omega)
          simp only [Nat.zero_add] at hfound
          rw [hn]
          simp [route_list, hfound]
        · simp [hlen] at h

theorem route_twice (cfg : Config) (hU : cfg.CFG_TUD_MIDI_NUMCABLES_IN ≤ 255)
    (r : midi_input_routes_t) (o : Nat) (r2 : midi_input_routes_t) (b : Bool)
    (h : route cfg r o = some (r2, b)) : route cfg r2 o = some (r2, b) := by
  have hP : NUM_PIO_MIDI_UARTS cfg ≤ 255 := by
    unfold NUM_PIO_MIDI_UARTS; split <;> omega
  have hH : NUM_HW_MIDI_UARTS ≤ 255 := by unfold NUM_HW_MIDI_UARTS; omega
  unfold route at h ⊢
  by_cases h1 : o ≤ 56
  · simp only [h1, if_true] at h ⊢
    cases hr : route_list cfg.CFG_TUD_MIDI_NUMCABLES_IN r.usb_midi_cable_list
        r.num_usb_midi_routes o with
    | none => simp [hr] at h
    | some p =>
      obtain ⟨l, n, c⟩ := p
      simp only [hr, Option.some.injEq, Prod.mk.injEq] at h
      obtain ⟨rfl, rfl⟩ := h
      simp [route_list_twice _ hU _ _ _ _ _ _ hr]
  · by_cases h2 : o ≤ 70
    · simp only [h1, h2, if_true, if_false] at h ⊢
      cases hr : route_list (NUM_PIO_MIDI_UARTS cfg) r.pio_uart_number_list
          r.num_pio_uart_routes o with
      | none => simp [hr] at h
      | some p =>
        obtain ⟨l, n, c⟩ := p
        simp only [hr, Option.some.injEq, Prod.mk.injEq] at h
        obtain ⟨rfl, rfl⟩ := h
        simp [route_list_twice _ hP _ _ _ _ _ _ hr]
    · by_cases h3 : o ≤ 72
      · simp only [h1, h2, h3, if_true, if_false] at h ⊢
        cases hr : route_list NUM_HW_MIDI_UARTS r.hw_uart_number_list
            r.num_hw_uart_routes o with
        | none => simp [hr] at h
        | some p =>
          obtain ⟨l, n, c⟩ := p
          simp only [hr, Option.some.injEq, Prod.mk.injEq] at h
          obtain ⟨rfl, rfl⟩ := h
          simp [route_list_twice _ hH _ _ _ _ _ _ hr]
      · simp only [h1, h2, h3, if_false, Option.some.injEq, Prod.mk.injEq] at h ⊢
        obtain ⟨rfl, rfl⟩ := h
        trivial

theorem at_index_twice (t : List midi_input_routes_t) (i : Nat)
    (f : midi_input_routes_t → Option (midi_input_routes_t × Bool))
    (hf : ∀ r r2 b, f r = some (r2, b) → f r2 = some (r2, b))
    (t2 : List midi_input_routes_t) (b : Bool)
    (h : at_index t i f = some (t2, b)) : at_index t2 i f = some (t2, b) := by
  unfold at_index at h
  cases hr : t[i]? with
  | none => simp [hr] at h
  | some r =>
    simp only [hr] at h
    cases hfr : f r with
    | none => simp [hfr] at h
    | some p =>
      obtain ⟨r2, c⟩ := p
      simp only [hfr, Option.some.injEq, Prod.mk.injEq] at h
      obtain ⟨rfl, rfl⟩ := h
      have hi : i < t.length := by
        rcases List.getElem?_eq_some.mp hr with ⟨hi, _⟩
        exact hi
      unfold at_index
      rw [List.getElem?_set_self hi]
      simp [hf r r2 c hfr]

theorem at_index_unchanged (t : List midi_input_routes_t) (i : Nat)
    (f : midi_input_routes_t → Option Bool)
    (g : midi_input_routes_t → Option (midi_input_routes_t × Bool))
    (hfg : ∀ r, f r = some false → g r = some (r, false))
    (h : read_index t i f = some false) : at_index t i g = some (t, false) := by
  unfold read_index at h
  unfold at_index
  cases hr : t[i]? with
  | none => simp [hr] at h
  | some r =>
    simp only [hr] at h
    simp only [hfg r h, Option.some.injEq, Prod.mk.injEq, and_true]
    apply List.ext_getElem?
    intro n
    by_cases hn : i = n
    · subst hn
      rw [List.getElem?_set_self', hr]
      rfl
    · rw [List.getElem?_set_ne hn]

theorem unroute_list_absent (l : List Nat) (n o : Nat)
    (h : is_routed_list l n o = some false) : unroute_list l n o = some (l, n, false) := by
  unfold is_routed_list at h
  unfold unroute_list
  cases hs : scan l o n 0 with
  | none => simp [hs] at h
  | some r =>
    cases r with
    | none => rfl
    | some idx => simp [hs] at h

theorem unroute_absent (r : midi_input_routes_t) (o : Nat)
    (h : is_routed r o = some false) : unroute r o = some (r, false) := by
  unfold is_routed at h
  unfold unroute
  by_cases h1 : o ≤ 56
  · simp only [h1, if_true] at h ⊢
    rw [unroute_list_absent _ _ _ h]
  · by_cases h2 : o ≤ 70
    · simp only [h1, h2, if_true, if_false] at h ⊢
      rw [unroute_list_absent _ _ _ h]
    · by_cases h3 : o ≤ 72
      · simp only [h1, h2, h3, if_true, if_false] at h ⊢
        rw [unroute_list_absent _ _ _ h]
      · simp only [h1, h2, h3, if_false]

theorem connect_twice (cfg : Config) (hU : cfg.CFG_TUD_MIDI_NUMCABLES_IN ≤ 255)
    (st : Routes) (i o : Nat) (st2 : Routes) (b : Bool)
    (h : connect cfg st i o = some (st2, b)) : connect cfg st2 i o = some (st2, b) := by
  have hf := route_twice cfg hU
  unfold connect at h ⊢
  by_cases hv : (is_port_valid cfg i && is_port_valid cfg o) = true
  · simp only [hv, if_true] at h ⊢
    by_cases h1 : i ≤ 56
    · simp only [h1, if_true] at h ⊢
      cases ha : at_index st.usb_routes (i - 49) (fun r => route cfg r o) with
      | none => simp [ha] at h
      | some p =>
        obtain ⟨t, c⟩ := p
        simp only [ha, Option.some.injEq, Prod.mk.injEq] at h
        obtain ⟨rfl, rfl⟩ := h
        simp [at_index_twice _ _ _ (fun r r2 b hr => hf r o r2 b hr) _ _ ha]
    · by_cases h2 : i ≤ 70
      · simp only [h1, h2, if_true, if_false] at h ⊢
        cases ha : at_index st.pio_routes (i - 65) (fun r => route cfg r o) with
        | none => simp [ha] at h
        | some p =>
          obtain ⟨t, c⟩ := p
          simp only [ha, Option.some.injEq, Prod.mk.injEq] at h
          obtain ⟨rfl, rfl⟩ := h
          simp [at_index_twice _ _ _ (fun r r2 b hr => hf r o r2 b hr) _ _ ha]
      · simp only [h1, h2, if_false] at h ⊢
        cases ha : at_index st.hw_routes (i - 71) (fun r => route cfg r o) with
        | none => simp [ha] at h
        | some p =>
          obtain ⟨t, c⟩ := p
          simp only [ha, Option.some.injEq, Prod.mk.injEq] at h
          obtain ⟨rfl, rfl⟩ := h
          simp [at_index_twice _ _ _ (fun r r2 b hr => hf r o r2 b hr) _ _ ha]
  · simp only [hv, if_false, Option.some.injEq, Prod.mk.injEq] at h ⊢
    obtain ⟨rfl, rfl⟩ := h
    trivial

theorem disconnect_absent (cfg : Config) (st : Routes) (i o : Nat)
    (h : is_connected cfg st i o = some false) :
    disconnect cfg st i o = some (st, false) := by
  have hg : ∀ r, is_routed r o = some false → unroute r o = some (r, false) :=
    fun r hr => unroute_absent r o hr
  unfold is_connected at h
  unfold disconnect
  by_cases hv : (is_port_valid cfg i && is_port_valid cfg o) = true
  · simp only [hv, if_true] at h ⊢
    by_cases h1 : i ≤ 56
    · simp only [h1, if_true] at h ⊢
      rw [at_index_unchanged _ _ _ _ hg h]
    · by_cases h2 : i ≤ 70
      · simp only [h1, h2, if_true, if_false] at h ⊢
        rw [at_index_unchanged _ _ _ _ hg h]
      · simp only [h1, h2, if_false] at h ⊢
        rw [at_index_unchanged _ _ _ _ hg h]
  · simp [hv]

theorem is_port_valid_iff (cfg : Config) (t : Nat) :
    is_port_valid cfg t = true ↔ documented_valid cfg t := by
  have hP : NUM_PIO_MIDI_UARTS cfg = 4 ∨ NUM_PIO_MIDI_UARTS cfg = 6 := by
    unfold NUM_PIO_MIDI_UARTS; split <;> simp
  unfold is_port_valid documented_valid toupper
  generalize NUM_PIO_MIDI_UARTS cfg = P at hP ⊢
  constructor
  · intro h
    by_cases hd : 49 ≤ t ∧ t ≤ 56
    · simp only [hd, and_self, if_true, decide_eq_true_eq] at h
      exact Or.inl ⟨hd.1, hd.2, h⟩
    · right
      simp only [hd, if_false] at h
      by_cases hl : 97 ≤ t ∧ t ≤ 122
      · simp only [hl, and_self, if_true, Bool.or_eq_true, Bool.and_eq_true,
          decide_eq_true_eq] at h
        refine ⟨t - 32, Or.inr (by omega), ?_⟩
        omega
      · simp only [hl, if_false, Bool.or_eq_true, Bool.and_eq_true,
          decide_eq_true_eq] at h
        refine ⟨t, Or.inl rfl, ?_⟩
        omega
  · intro h
    rcases h with ⟨h1, h2, h3⟩ | ⟨c, hc, hr⟩
    · simp [h1, h2, h3]
    · have hd : ¬ (49 ≤ t ∧ t ≤ 56) := by omega
      simp only [hd, if_false]
      by_cases hl : 97 ≤ t ∧ t ≤ 122
      · simp only [hl, and_self, if_true, Bool.or_eq_true, Bool.and_eq_true,
          decide_eq_true_eq]
        omega
      · simp only [hl, if_false, Bool.or_eq_true, Bool.and_eq_true,
          decide_eq_true_eq]
        omega

/-! ## The state left by `init_routes` -/

theorem map_range_get {α : Type} (f : Nat → α) (m n : Nat) (h : n < m) :
    ((List.range m).map f)[n]? = some (f n) := by
  simp [List.getElem?_map, List.getElem?_range h]

theorem map_range_get_none {α : Type} (f : Nat → α) (m n : Nat) (h : m ≤ n) :
    ((List.range m).map f)[n]? = none := by
  apply List.getElem?_eq_none
  simpa using h

theorem map_range_set {α : Type} (f : Nat → α) (m n : Nat) (v : α) :
    ((List.range m).map f).set n v = (List.range m).map (fun k => if k = n then v else f k) := by
  apply List.ext_getElem?
  intro j
  by_cases hj : j < m
  · rw [map_range_get _ _ _ hj, List.getElem?_set]
    by_cases hnj : n = j
    · subst hnj
      simp [hj]
    · have hjn : ¬ j = n := fun e => hnj e.symm
      simp [hnj, hjn, map_range_get _ _ _ hj]
  · have hj2 : m ≤ j := Nat.le_of_not_lt hj
    rw [map_range_get_none _ _ _ hj2]
    apply List.getElem?_eq_none
    simpa using hj2

theorem replicate_eq_map_range {α : Type} (m : Nat) (a : α) :
    List.replicate m a = (List.range m).map (fun _ => a) := by
  apply List.ext_getElem?
  intro j
  by_cases hj : j < m
  · rw [map_range_get _ _ _ hj, List.getElem?_replicate_of_lt hj]
  · have hj2 : m ≤ j := Nat.le_of_not_lt hj
    rw [map_range_get_none _ _ _ hj2]
    apply List.getElem?_eq_none
    simpa using hj2

theorem map_range_congr {α : Type} (f g : Nat → α) (m : Nat)
    (h : ∀ k, k < m → f k = g k) : (List.range m).map f = (List.range m).map g := by
  apply List.map_congr_left
  intro k hk
  exact h k (List.mem_range.mp hk)

theorem pio_count_cases (cfg : Config) :
    NUM_PIO_MIDI_UARTS cfg = 4 ∨ NUM_PIO_MIDI_UARTS cfg = 6 := by
  unfold NUM_PIO_MIDI_UARTS
  split <;> simp

theorem pio_loop_eq (cfg : Config) (h : well_sized cfg) :
    ∀ n, n ≤ NUM_PIO_MIDI_UARTS cfg →
      for_loop init_pio_step (zero_tables cfg) n = some
        { usb_routes := (List.range cfg.CFG_TUD_MIDI_NUMCABLES_IN).map
            (fun k => if k < n then usb_default cfg k else zero_routes cfg)
          pio_routes := (List.range (NUM_PIO_MIDI_UARTS cfg)).map
            (fun k => if k < n then pio_default cfg k else zero_routes cfg)
          hw_routes := List.replicate NUM_HW_MIDI_UARTS (zero_routes cfg) } := by
  obtain ⟨h1, h2, h3⟩ := h
  have hP := pio_count_cases cfg
  have hH : NUM_HW_MIDI_UARTS = 2 := rfl
  intro n
  induction n with
  | zero =>
    intro _
    simp only [for_loop, zero_tables, Nat.not_lt_zero, if_false]
    rw [replicate_eq_map_range cfg.CFG_TUD_MIDI_NUMCABLES_IN,
      replicate_eq_map_range (NUM_PIO_MIDI_UARTS cfg)]
  | succ n ih =>
    intro hn
    have hnP : n < NUM_PIO_MIDI_UARTS cfg := by omega
    have hnU : n < cfg.CFG_TUD_MIDI_NUMCABLES_IN := by omega
    have hOUT : 0 < cfg.CFG_TUD_MIDI_NUMCABLES_OUT := by omega
    have hmod1 : (n + 65) % 256 = 65 + n := by omega
    have hmod2 : (n + 49) % 256 = 49 + n := by omega
    rw [for_loop, ih (by omega)]
    have hP0 : 0 < NUM_PIO_MIDI_UARTS cfg := by omega
    unfold init_pio_step
    simp only [map_range_get _ _ _ hnU, map_range_get _ _ _ hnP,
      Nat.lt_irrefl, if_false, store, List.length_map, List.length_range, hnP, hnU, if_true,
      hmod1, hmod2, map_range_set]
    have e1 : 0 < (zero_routes cfg).pio_uart_number_list.length := by
      simp [zero_routes, hP0]
    have e2 : 0 < (zero_routes cfg).usb_midi_cable_list.length := by
      simp [zero_routes, hOUT]
    simp only [e1, e2, if_true]
    congr 2
    · apply map_range_congr
      intro k _
      by_cases hk : k = n
      · subst hk
        simp [usb_default, hnP, zero_routes]
      · have : k < n + 1 ↔ k < n := by omega
        simp [hk, this]
    · apply map_range_congr
      intro k _
      by_cases hk : k = n
      · subst hk
        simp [pio_default, zero_routes]
      · have : k < n + 1 ↔ k < n := by omega
        simp [hk, this]

theorem hw_loop_eq (cfg : Config) (h : well_sized cfg) :
    ∀ n, n ≤ NUM_HW_MIDI_UARTS →
      for_loop (init_hw_step cfg)
        { usb_routes := (List.range cfg.CFG_TUD_MIDI_NUMCABLES_IN).map
            (fun k => if k < NUM_PIO_MIDI_UARTS cfg then usb_default cfg k
              else zero_routes cfg)
          pio_routes := (List.range (NUM_PIO_MIDI_UARTS cfg)).map
            (fun k => if k < NUM_PIO_MIDI_UARTS cfg then pio_default cfg k
              else zero_routes cfg)
          hw_routes := List.replicate NUM_HW_MIDI_UARTS (zero_routes cfg) } n = some
        { usb_routes := (List.range cfg.CFG_TUD_MIDI_NUMCABLES_IN).map
            (fun k => if k < NUM_PIO_MIDI_UARTS cfg + n then usb_default cfg k
              else zero_routes cfg)
          pio_routes := (List.range (NUM_PIO_MIDI_UARTS cfg)).map
            (fun k => if k < NUM_PIO_MIDI_UARTS cfg then pio_default cfg k
              else zero_routes cfg)
          hw_routes := (List.range NUM_HW_MIDI_UARTS).map
            (fun j => if j < n then hw_default cfg j else zero_routes cfg) } := by
  obtain ⟨h1, h2, h3⟩ := h
  have hP := pio_count_cases cfg
  have hH : NUM_HW_MIDI_UARTS = 2 := rfl
  intro n
  induction n with
  | zero =>
    intro _
    simp only [for_loop, Nat.not_lt_zero, if_false, Nat.add_zero]
    rw [replicate_eq_map_range NUM_HW_MIDI_UARTS]
  | succ n ih =>
    intro hn
    have hnH : n < NUM_HW_MIDI_UARTS := by omega
    have hnU : n + NUM_PIO_MIDI_UARTS cfg < cfg.CFG_TUD_MIDI_NUMCABLES_IN := by omega
    have hOUT : 0 < cfg.CFG_TUD_MIDI_NUMCABLES_OUT := by omega
    have hmod1 : (n + 71) % 256 = 71 + n := by omega
    have hmod2 : (n + NUM_PIO_MIDI_UARTS cfg + 49) % 256
        = 49 + (NUM_PIO_MIDI_UARTS cfg + n) := by omega
    have hnot : ¬ (n + NUM_PIO_MIDI_UARTS cfg < NUM_PIO_MIDI_UARTS cfg + n) := by omega
    rw [for_loop, ih (by omega)]
    unfold init_hw_step
    simp only [map_range_get _ _ _ hnU, map_range_get _ _ _ hnH, hnot,
      Nat.lt_irrefl, if_false, store, List.length_map, List.length_range, hnH, hnU, if_true,
      hmod1, hmod2, map_range_set]
    have e1 : 0 < (zero_routes cfg).hw_uart_number_list.length := by
      simp [zero_routes, hH]
    have e2 : 0 < (zero_routes cfg).usb_midi_cable_list.length := by
      simp [zero_routes, hOUT]
    simp only [e1, e2, if_true]
    congr 2
    · apply map_range_congr
      intro k _
      by_cases hk : k = n + NUM_PIO_MIDI_UARTS cfg
      · subst hk
        have a1 : ¬ (n + NUM_PIO_MIDI_UARTS cfg < NUM_PIO_MIDI_UARTS cfg) := by omega
        have a2 : n + NUM_PIO_MIDI_UARTS cfg < NUM_PIO_MIDI_UARTS cfg + (n + 1) := by omega
        have a3 : n + NUM_PIO_MIDI_UARTS cfg < NUM_PIO_MIDI_UARTS cfg + NUM_HW_MIDI_UARTS := by
          omega
        simp [usb_default, a1, a2, a3, zero_routes]
      · have : k < NUM_PIO_MIDI_UARTS cfg + (n + 1) ↔ k < NUM_PIO_MIDI_UARTS cfg + n := by
          omega
        simp [hk, this]
    · apply map_range_congr
      intro k _
      by_cases hk : k = n
      · subst hk
        simp [hw_default, zero_routes]
      · have : k < n + 1 ↔ k < n := by omega
        simp [hk, this]

theorem init_routes_eq (cfg : Config) (h : well_sized cfg) :
    init_routes cfg = some (default_routes cfg) := by
  unfold init_routes
  rw [pio_loop_eq cfg h _ (Nat.le_refl _)]
  simp only []
  rw [hw_loop_eq cfg h _ (Nat.le_refl _)]
  unfold default_routes
  congr 2
  · apply map_range_congr
    intro k _
    by_cases hk : k < NUM_PIO_MIDI_UARTS cfg + NUM_HW_MIDI_UARTS
    · simp [hk]
    · have a1 : ¬ k < NUM_PIO_MIDI_UARTS cfg := by omega
      simp [hk, usb_default, a1]
  · apply map_range_congr
    intro k hk
    simp [hk]

theorem well_sized_cfg6 : well_sized cfg6 := by
  unfold well_sized NUM_PIO_MIDI_UARTS NUM_HW_MIDI_UARTS cfg6
  simp

theorem well_sized_cfg8 : well_sized cfg8 := by
  unfold well_sized NUM_PIO_MIDI_UARTS NUM_HW_MIDI_UARTS cfg8
  simp

/-! ## Tokens of ports -/

theorem kind_count_le (cfg : Config) (h : well_sized cfg) (k : Kind) :
    k.base + k.count cfg ≤ 73 ∧ 49 ≤ k.base := by
  obtain ⟨h1, h2, h3⟩ := h
  have hP := pio_count_cases cfg
  have hH : NUM_HW_MIDI_UARTS = 2 := rfl
  cases k <;> simp only [Kind.base, Kind.count] <;> omega

theorem valid_token (cfg : Config) (h : well_sized cfg) (k : Kind) (i : Nat)
    (hi : i < k.count cfg) : is_port_valid cfg (token k i) = true := by
  obtain ⟨h1, h2, h3⟩ := h
  have hP := pio_count_cases cfg
  have hH : NUM_HW_MIDI_UARTS = 2 := rfl
  rw [is_port_valid_iff]
  unfold documented_valid
  cases k <;> simp only [Kind.base, Kind.count, token] at hi ⊢
  · left
    omega
  · right
    exact ⟨65 + i, Or.inl rfl, by omega⟩
  · right
    exact ⟨71 + i, Or.inl rfl, by omega⟩

theorem route_token (cfg : Config) (h : well_sized cfg) (kd : Kind) (j : Nat)
    (hj : j < kd.count cfg) (r : midi_input_routes_t) :
    route cfg r (token kd j) =
      match route_list (kd.count cfg) (list_of r kd) (count_of r kd) (token kd j) with
      | none => none
      | some (l, n, b) => some (set_kind r kd l n, b) := by
  obtain ⟨h1, h2, h3⟩ := h
  have hP := pio_count_cases cfg
  have hH : NUM_HW_MIDI_UARTS = 2 := rfl
  unfold route
  cases kd <;> simp only [Kind.base, Kind.count, token, list_of, count_of, set_kind] at hj ⊢
  · have a : 49 + j ≤ 56 := by omega
    simp only [a, if_true]
  · have a : ¬ 65 + j ≤ 56 := by omega
    have b : 65 + j ≤ 70 := by omega
    simp only [a, b, if_true, if_false]
  · have a : ¬ 71 + j ≤ 56 := by omega
    have b : ¬ 71 + j ≤ 70 := by omega
    have c : 71 + j ≤ 72 := by omega
    simp only [a, b, c, if_true, if_false]

theorem is_routed_token (cfg : Config) (h : well_sized cfg) (kd : Kind) (j : Nat)
    (hj : j < kd.count cfg) (r : midi_input_routes_t) :
    is_routed r (token kd j) =
      is_routed_list (list_of r kd) (count_of r kd) (token kd j) := by
  obtain ⟨h1, h2, h3⟩ := h
  have hP := pio_count_cases cfg
  have hH : NUM_HW_MIDI_UARTS = 2 := rfl
  unfold is_routed
  cases kd <;> simp only [Kind.base, Kind.count, token, list_of, count_of] at hj ⊢
  · have a : 49 + j ≤ 56 := by omega
    simp only [a, if_true]
  · have a : ¬ 65 + j ≤ 56 := by omega
    have b : 65 + j ≤ 70 := by omega
    simp only [a, b, if_true, if_false]
  · have a : ¬ 71 + j ≤ 56 := by omega
    have b : ¬ 71 + j ≤ 70 := by omega
    have c : 71 + j ≤ 72 := by omega
    simp only [a, b, c, if_true, if_false]

theorem connect_token (cfg : Config) (h : well_sized cfg) (ks : Kind) (i : Nat)
    (hi : i < ks.count cfg) (o : Nat) (ho : is_port_valid cfg o = true) (st : Routes) :
    connect cfg st (token ks i) o =
      match at_index (table st ks) i (fun r => route cfg r o) with
      | none => none
      | some (t, b) => some (set_table st ks t, b) := by
  have hv := valid_token cfg h ks i hi
  obtain ⟨h1, h2, h3⟩ := h
  have hP := pio_count_cases cfg
  have hH : NUM_HW_MIDI_UARTS = 2 := rfl
  unfold connect
  simp only [hv, ho, Bool.and_self, if_true]
  cases ks <;> simp only [Kind.base, Kind.count, token, table, set_table] at hi ⊢
  · have a : 49 + i ≤ 56 := by omega
    simp only [a, if_true, Nat.add_sub_cancel_left]
  · have a : ¬ 65 + i ≤ 56 := by omega
    have b : 65 + i ≤ 70 := by omega
    simp only [a, b, if_true, if_false, Nat.add_sub_cancel_left]
  · have a : ¬ 71 + i ≤ 56 := by omega
    have b : ¬ 71 + i ≤ 70 := by omega
    simp only [a, b, if_false, Nat.add_sub_cancel_left]

theorem is_connected_token (cfg : Config) (h : well_sized cfg) (ks : Kind) (i : Nat)
    (hi : i < ks.count cfg) (o : Nat) (ho : is_port_valid cfg o = true) (st : Routes) :
    is_connected cfg st (token ks i) o =
      read_index (table st ks) i (fun r => is_routed r o) := by
  have hv := valid_token cfg h ks i hi
  obtain ⟨h1, h2, h3⟩ := h
  have hP := pio_count_cases cfg
  have hH : NUM_HW_MIDI_UARTS = 2 := rfl
  unfold is_connected
  simp only [hv, ho, Bool.and_self, if_true]
  cases ks <;> simp only [Kind.base, Kind.count, token, table] at hi ⊢
  · have a : 49 + i ≤ 56 := by omega
    simp only [a, if_true, Nat.add_sub_cancel_left]
  · have a : ¬ 65 + i ≤ 56 := by omega
    have b : 65 + i ≤ 70 := by omega
    simp only [a, b, if_true, if_false, Nat.add_sub_cancel_left]
  · have a : ¬ 71 + i ≤ 56 := by omega
    have b : ¬ 71 + i ≤ 70 := by omega
    simp only [a, b, if_false, Nat.add_sub_cancel_left]

theorem table_default_get (cfg : Config) (ks : Kind) (i : Nat) (hi : i < ks.count cfg) :
    (table (default_routes cfg) ks)[i]? = some (row_default cfg ks i) := by
  cases ks <;> simp only [Kind.count] at hi <;>
    simp only [table, default_routes, row_default, map_range_get _ _ _ hi]

theorem is_routed_list_zero (l : List Nat) (o : Nat) :
    is_routed_list l 0 o = some false := rfl

theorem is_routed_list_single (m v o : Nat) (hm : 0 < m) :
    is_routed_list ((List.replicate m 0).set 0 v) 1 o = some (decide (v = o)) := by
  have hlen : 0 < (List.replicate m 0).length := by simpa using hm
  unfold is_routed_list
  rw [scan, List.getElem?_set_self hlen]
  by_cases hv : v = o
  · simp [hv]
  · simp [hv, scan]

theorem is_routed_default (cfg : Config) (h : well_sized cfg) (ks : Kind) (i : Nat)
    (hi : i < ks.count cfg) (kd : Kind) (j : Nat) (hj : j < kd.count cfg) :
    ∃ b, is_routed_list (list_of (row_default cfg ks i) kd)
        (count_of (row_default cfg ks i) kd) (token kd j) = some b ∧
      (b = true ↔ default_edge cfg ks i kd j) := by
  obtain ⟨h1, h2, h3⟩ := h
  have hP := pio_count_cases cfg
  have hH : NUM_HW_MIDI_UARTS = 2 := rfl
  have hP0 : 0 < NUM_PIO_MIDI_UARTS cfg := by omega
  have hH0 : 0 < NUM_HW_MIDI_UARTS := by omega
  have hO0 : 0 < cfg.CFG_TUD_MIDI_NUMCABLES_OUT := by omega
  unfold default_edge
  cases ks <;> cases kd <;>
    simp only [Kind.count, Kind.base, token, row_default, usb_default, pio_default,
      hw_default] at hi hj ⊢
  · -- usb to usb
    refine ⟨false, ?_, by simp⟩
    split_ifs <;> exact is_routed_list_zero _ _
  · -- usb to pio
    by_cases hk : i < NUM_PIO_MIDI_UARTS cfg
    · simp only [hk, if_true, list_of, count_of]
      refine ⟨_, is_routed_list_single _ _ _ hP0, ?_⟩
      simp only [decide_eq_true_eq, true_and, false_and, or_false, false_or,
        reduceCtorEq]
      omega
    · refine ⟨false, ?_, ?_⟩
      · simp only [hk, if_false]
        split_ifs <;> exact is_routed_list_zero _ _
      · simp only [Bool.false_eq_true, false_iff, true_and, false_and, or_false, false_or,
          reduceCtorEq]
        omega
  · -- usb to hw
    by_cases hk : i < NUM_PIO_MIDI_UARTS cfg
    · refine ⟨false, ?_, ?_⟩
      · simp only [hk, if_true]
        exact is_routed_list_zero _ _
      · simp only [Bool.false_eq_true, false_iff, true_and, false_and, or_false, false_or,
          reduceCtorEq]
        omega
    · by_cases hk2 : i < NUM_PIO_MIDI_UARTS cfg + NUM_HW_MIDI_UARTS
      · simp only [hk, hk2, if_true, if_false, list_of, count_of]
        refine ⟨_, is_routed_list_single _ _ _ hH0, ?_⟩
        simp only [decide_eq_true_eq, true_and, false_and, or_false, false_or,
          reduceCtorEq]
        omega
      · refine ⟨false, ?_, ?_⟩
        · simp only [hk, hk2, if_false]
          exact is_routed_list_zero _ _
        · simp only [Bool.false_eq_true, false_iff, true_and, false_and, or_false,
            false_or, reduceCtorEq]
          omega
  · -- pio to usb
    simp only [list_of, count_of]
    refine ⟨_, is_routed_list_single _ _ _ hO0, ?_⟩
    simp only [decide_eq_true_eq, true_and, false_and, or_false, false_or,
      reduceCtorEq]
    omega
  · -- pio to pio
    refine ⟨false, is_routed_list_zero _ _, ?_⟩
    simp
  · -- pio to hw
    refine ⟨false, is_routed_list_zero _ _, ?_⟩
    simp
  · -- hw to usb
    simp only [list_of, count_of]
    refine ⟨_, is_routed_list_single _ _ _ hO0, ?_⟩
    simp only [decide_eq_true_eq, true_and, false_and, or_false, false_or,
      reduceCtorEq]
    omega
  · -- hw to pio
    refine ⟨false, is_routed_list_zero _ _, ?_⟩
    simp
  · -- hw to hw
    refine ⟨false, is_routed_list_zero _ _, ?_⟩
    simp

theorem is_connected_default (cfg : Config) (h : well_sized cfg) (ks : Kind) (i : Nat)
    (hi : i < ks.count cfg) (kd : Kind) (j : Nat) (hj : j < kd.count cfg) :
    ∃ b, is_connected cfg (default_routes cfg) (token ks i) (token kd j) = some b ∧
      (b = true ↔ default_edge cfg ks i kd j) := by
  rw [is_connected_token cfg h ks i hi _ (valid_token cfg h kd j hj)]
  unfold read_index
  rw [table_default_get cfg ks i hi]
  simp only [is_routed_token cfg h kd j hj]
  exact is_routed_default cfg h ks i hi kd j hj

theorem valid_cases (cfg : Config) (h : well_sized cfg) (t : Nat)
    (hv : is_port_valid cfg t = true) :
    (∃ k i, i < Kind.count cfg k ∧ t = token k i) ∨ 97 ≤ t := by
  obtain ⟨h1, h2, h3⟩ := h
  have hP := pio_count_cases cfg
  have hH : NUM_HW_MIDI_UARTS = 2 := rfl
  rw [is_port_valid_iff] at hv
  rcases hv with ⟨a, b, c⟩ | ⟨c, hc, hr⟩
  · exact Or.inl ⟨Kind.usb, t - 49, c, by simp only [token, Kind.base]; omega⟩
  · rcases hc with rfl | rfl
    · rcases hr with hr | hr | hr
      · exact Or.inl ⟨Kind.pio, t - 65, by simp only [Kind.count]; omega,
          by simp only [token, Kind.base]; omega⟩
      · exact Or.inl ⟨Kind.hw, 0, by simp only [Kind.count]; omega,
          by simp only [token, Kind.base]; omega⟩
      · exact Or.inl ⟨Kind.hw, 1, by simp only [Kind.count]; omega,
          by simp only [token, Kind.base]; omega⟩
    · right
      omega

theorem is_connected_true_valid (cfg : Config) (st : Routes) (a b : Nat)
    (h : is_connected cfg st a b = some true) :
    is_port_valid cfg a = true ∧ is_port_valid cfg b = true := by
  unfold is_connected at h
  by_cases hv : (is_port_valid cfg a && is_port_valid cfg b) = true
  · simpa using hv
  · simp [hv] at h

theorem default_only_edges (cfg : Config) (h : well_sized cfg) (a b : Nat)
    (hab : is_connected cfg (default_routes cfg) a b = some true) :
    ∃ ks i kd j, a = token ks i ∧ b = token kd j ∧ default_edge cfg ks i kd j := by
  obtain ⟨hva, hvb⟩ := is_connected_true_valid cfg _ a b hab
  rcases valid_cases cfg h a hva with ⟨ks, i, hi, rfl⟩ | ha
  · rcases valid_cases cfg h b hvb with ⟨kd, j, hj, rfl⟩ | hb
    · obtain ⟨c, e, hc⟩ := is_connected_default cfg h ks i hi kd j hj
      rw [e] at hab
      have : c = true := by simpa using hab
      exact ⟨ks, i, kd, j, rfl, rfl, hc.mp this⟩
    · rw [is_connected_token cfg h ks i hi b hvb] at hab
      unfold read_index at hab
      rw [table_default_get cfg ks i hi] at hab
      have a1 : ¬ b ≤ 56 := by omega
      have a2 : ¬ b ≤ 70 := by omega
      have a3 : ¬ b ≤ 72 := by omega
      simp [is_routed, a1, a2, a3] at hab
  · unfold is_connected at hab
    have a1 : ¬ a ≤ 56 := by omega
    have a2 : ¬ a ≤ 70 := by omega
    have hnone : (default_routes cfg).hw_routes[a - 71]? = none := by
      unfold default_routes
      apply map_range_get_none
      have hH : NUM_HW_MIDI_UARTS = 2 := rfl
      omega
    simp [hva, hvb, a1, a2, read_index, hnone] at hab

/-! ## Filling one list -/

theorem scan_mem (l : List Nat) (o : Nat) :
    ∀ (k i : Nat), i + k ≤ l.length →
      ∃ r, scan l o k i = some r ∧ (r = none ↔ o ∉ (l.drop i).take k) := by
  intro k
  induction k with
  | zero =>
    intro i _
    exact ⟨none, rfl, by simp⟩
  | succ k ih =>
    intro i hlen
    have hi : i < l.length := by omega
    obtain ⟨r, hr, hiff⟩ := ih (i + 1) (by omega)
    rw [scan, List.getElem?_eq_getElem hi, List.drop_eq_getElem_cons hi, List.take_succ_cons]
    by_cases hv : l[i] = o
    · refine ⟨some i, by simp [hv], ?_⟩
      simp [hv]
    · refine ⟨r, by simp [hv, hr], ?_⟩
      rw [hiff]
      have hne : ¬ o = l[i] := fun e => hv e.symm
      simp [hne]

theorem is_routed_list_of_mem (l : List Nat) (n o : Nat) (hn : n ≤ l.length)
    (ho : o ∈ l.take n) : is_routed_list l n o = some true := by
  obtain ⟨r, hr, hiff⟩ := scan_mem l o n 0 (by omega)
  simp only [List.drop_zero] at hiff
  unfold is_routed_list
  rw [hr]
  cases r with
  | none => exact absurd ho (hiff.mp rfl)
  | some idx => rfl

theorem take_store_end (l : List Nat) (n o : Nat) (hn : n < l.length) :
    (l.set n o).take (n + 1) = l.take n ++ [o] := by
  rw [List.take_succ, List.getElem?_set_self hn]
  congr 1
  apply List.ext_getElem?
  intro i
  rw [List.getElem?_take, List.getElem?_take]
  split
  · next h => rw [List.getElem?_set_ne (by omega)]
  · rfl

theorem route_list_fill (T : List Nat) (hcap : T.length ≤ 255)
    (l : List Nat) (n o : Nat) (hn : n ≤ l.length) (hlen : T.length ≤ l.length)
    (hnd : (l.take n).Nodup) (hsub : ∀ x, x ∈ l.take n → x ∈ T) (ho : o ∈ T) :
    ∃ l2 n2, route_list T.length l n o = some (l2, n2, true) ∧
      n2 ≤ l2.length ∧ l2.length = l.length ∧ (l2.take n2).Nodup ∧
      (∀ x, x ∈ l2.take n2 → x ∈ T) ∧ o ∈ l2.take n2 ∧
      (∀ x, x ∈ l.take n → x ∈ l2.take n2) := by
  obtain ⟨r, hr, hiff⟩ := scan_mem l o n 0 (by omega)
  simp only [List.drop_zero] at hiff
  unfold route_list
  rw [hr]
  cases r with
  | some idx =>
    have hmem : o ∈ l.take n := by
      by_contra hc
      have := hiff.mpr hc
      simp at this
    exact ⟨l, n, rfl, hn, rfl, hnd, hsub, hmem, fun x hx => hx⟩
  | none =>
    have hnot : o ∉ l.take n := hiff.mp rfl
    have hnd2 : (o :: l.take n).Nodup := List.nodup_cons.mpr ⟨hnot, hnd⟩
    have hsub2 : (o :: l.take n) ⊆ T := by
      intro x hx
      rcases List.mem_cons.mp hx with rfl | hx
      · exact ho
      · exact hsub x hx
    have hle := (List.subperm_of_subset hnd2 hsub2).length_le
    rw [List.length_cons, List.length_take_of_le hn] at hle
    have hlt : n < l.length := by omega
    have hc : ¬ n ≥ T.length := by omega
    have hmod : (n + 1) % 256 = n + 1 := Nat.mod_eq_of_lt (by omega)
    simp only [hc, if_false, store, hlt, if_true, hmod]
    refine ⟨l.set n o, n + 1, rfl, ?_, ?_, ?_, ?_, ?_, ?_⟩
    · rw [List.length_set]
      omega
    · rw [List.length_set]
    · rw [take_store_end l n o hlt]
      exact List.nodup_append.mpr ⟨hnd, List.nodup_singleton o, by
        intro x hx hx2
        rw [List.mem_singleton] at hx2
        subst hx2
        exact hnot hx⟩
    · intro x hx
      rw [take_store_end l n o hlt, List.mem_append, List.mem_singleton] at hx
      rcases hx with hx | rfl
      · exact hsub x hx
      · exact ho
    · rw [take_store_end l n o hlt]
      simp
    · intro x hx
      rw [take_store_end l n o hlt]
      exact List.mem_append_left _ hx

theorem kind_tokens_length (cfg : Config) (k : Kind) :
    (kind_tokens cfg k).length = Kind.count cfg k := by
  simp [kind_tokens]

theorem mem_kind_tokens (cfg : Config) (k : Kind) (x : Nat) :
    x ∈ kind_tokens cfg k ↔ ∃ j, j < Kind.count cfg k ∧ x = token k j := by
  simp only [kind_tokens, List.mem_map, List.mem_range]
  constructor
  · rintro ⟨j, hj, rfl⟩
    exact ⟨j, hj, rfl⟩
  · rintro ⟨j, hj, rfl⟩
    exact ⟨j, hj, rfl⟩

theorem kind_tokens_nodup (cfg : Config) (k : Kind) : (kind_tokens cfg k).Nodup := by
  unfold kind_tokens
  apply List.Nodup.map _ (List.nodup_range _)
  intro a b hab
  simp only [token] at hab
  omega

theorem list_of_set_kind (r : midi_input_routes_t) (kd : Kind) (l : List Nat) (n : Nat) :
    list_of (set_kind r kd l n) kd = l ∧ count_of (set_kind r kd l n) kd = n ∧
    ∀ k, k ≠ kd → list_of (set_kind r kd l n) k = list_of r k ∧
      count_of (set_kind r kd l n) k = count_of r k := by
  cases kd
  · refine ⟨rfl, rfl, ?_⟩
    intro k hk
    cases k
    · exact absurd rfl hk
    · exact ⟨rfl, rfl⟩
    · exact ⟨rfl, rfl⟩
  · refine ⟨rfl, rfl, ?_⟩
    intro k hk
    cases k
    · exact ⟨rfl, rfl⟩
    · exact absurd rfl hk
    · exact ⟨rfl, rfl⟩
  · refine ⟨rfl, rfl, ?_⟩
    intro k hk
    cases k
    · exact ⟨rfl, rfl⟩
    · exact ⟨rfl, rfl⟩
    · exact absurd rfl hk

theorem route_fill (cfg : Config) (h : well_sized cfg) (kd : Kind)
    (r : midi_input_routes_t) (hok : row_ok cfg r kd) (o : Nat)
    (ho : o ∈ kind_tokens cfg kd) :
    ∃ r2, route cfg r o = some (r2, true) ∧ row_ok cfg r2 kd ∧ o ∈ live r2 kd ∧
      (∀ x, x ∈ live r kd → x ∈ live r2 kd) ∧
      (∀ k, k ≠ kd → list_of r2 k = list_of r k ∧ count_of r2 k = count_of r k) := by
  obtain ⟨j, hj, rfl⟩ := (mem_kind_tokens cfg kd o).mp ho
  obtain ⟨hn, hlen, hnd, hsub⟩ := hok
  have hcap : (kind_tokens cfg kd).length ≤ 255 := by
    rw [kind_tokens_length]
    have := (kind_count_le cfg h kd).1
    have := (kind_count_le cfg h kd).2
    omega
  have hlen2 : (kind_tokens cfg kd).length ≤ (list_of r kd).length := by
    rw [kind_tokens_length]
    exact hlen
  obtain ⟨l2, n2, hr, a1, a2, a3, a4, a5, a6⟩ :=
    route_list_fill (kind_tokens cfg kd) hcap (list_of r kd) (count_of r kd) (token kd j)
      hn hlen2 hnd hsub ho
  rw [kind_tokens_length] at hr
  obtain ⟨e1, e2, e3⟩ := list_of_set_kind r kd l2 n2
  refine ⟨set_kind r kd l2 n2, ?_, ?_, ?_, ?_, e3⟩
  · rw [route_token cfg h kd j hj, hr]
  · unfold row_ok live
    rw [e1, e2]
    exact ⟨a1, by omega, a3, a4⟩
  · unfold live
    rw [e1, e2]
    exact a5
  · intro x hx
    unfold live
    rw [e1, e2]
    exact a6 x hx

theorem table_set_table (st : Routes) (ks : Kind) (t : List midi_input_routes_t) :
    table (set_table st ks t) ks = t := by
  cases ks <;> rfl

theorem connect_fill (cfg : Config) (h : well_sized cfg) (ks : Kind) (i : Nat)
    (hi : i < Kind.count cfg ks) (kd : Kind) (st : Routes) (r : midi_input_routes_t)
    (hrow : (table st ks)[i]? = some r) (hok : row_ok cfg r kd) (o : Nat)
    (ho : o ∈ kind_tokens cfg kd) :
    ∃ st2 r2, connect cfg st (token ks i) o = some (st2, true) ∧
      (table st2 ks)[i]? = some r2 ∧ row_ok cfg r2 kd ∧ o ∈ live r2 kd ∧
      (∀ x, x ∈ live r kd → x ∈ live r2 kd) ∧
      (∀ k, k ≠ kd → list_of r2 k = list_of r k ∧ count_of r2 k = count_of r k) := by
  obtain ⟨j, hj, hoj⟩ := (mem_kind_tokens cfg kd o).mp ho
  have hv : is_port_valid cfg o = true := by
    rw [hoj]
    exact valid_token cfg h kd j hj
  obtain ⟨r2, hr, b1, b2, b3, b4⟩ := route_fill cfg h kd r hok o ho
  have hilen : i < (table st ks).length := by
    rcases List.getElem?_eq_some.mp hrow with ⟨hlt, _⟩
    exact hlt
  refine ⟨set_table st ks ((table st ks).set i r2), r2, ?_, ?_, b1, b2, b3, b4⟩
  · rw [connect_token cfg h ks i hi o hv]
    unfold at_index
    rw [hrow]
    simp only [hr]
  · rw [table_set_table, List.getElem?_set_self hilen]

theorem run_fill (cfg : Config) (h : well_sized cfg) (ks : Kind) (i : Nat)
    (hi : i < Kind.count cfg ks) (kd : Kind) :
    ∀ (ds : List Nat), (∀ d, d ∈ ds → d ∈ kind_tokens cfg kd) →
    ∀ (st : Routes) (r : midi_input_routes_t),
      (table st ks)[i]? = some r → row_ok cfg r kd →
      ∃ st2 r2, run cfg st (ds.map (Cmd.connect (token ks i)))
          = some (st2, List.replicate ds.length true) ∧
        (table st2 ks)[i]? = some r2 ∧ row_ok cfg r2 kd ∧
        (∀ d, d ∈ ds → d ∈ live r2 kd) ∧
        (∀ x, x ∈ live r kd → x ∈ live r2 kd) ∧
        (∀ k, k ≠ kd → list_of r2 k = list_of r k ∧ count_of r2 k = count_of r k) := by
  intro ds
  induction ds with
  | nil =>
    intro _ st r hrow hok
    exact ⟨st, r, rfl, hrow, hok, by simp, fun x hx => hx, fun k _ => ⟨rfl, rfl⟩⟩
  | cons d ds ih =>
    intro hds st r hrow hok
    obtain ⟨st1, r1, hc, hrow1, hok1, hd1, hsub1, hoth1⟩ :=
      connect_fill cfg h ks i hi kd st r hrow hok d (hds d (List.mem_cons_self d ds))
    obtain ⟨st2, r2, hrun, hrow2, hok2, hd2, hsub2, hoth2⟩ :=
      ih (fun x hx => hds x (List.mem_cons_of_mem d hx)) st1 r1 hrow1 hok1
    refine ⟨st2, r2, ?_, hrow2, hok2, ?_, fun x hx => hsub2 x (hsub1 x hx), ?_⟩
    · simp only [List.map_cons, run, step, hc, hrun, List.length_cons, List.replicate_succ]
    · intro x hx
      rcases List.mem_cons.mp hx with rfl | hx
      · exact hsub2 x hd1
      · exact hd2 x hx
    · intro k hk
      exact ⟨(hoth2 k hk).1.trans (hoth1 k hk).1, (hoth2 k hk).2.trans (hoth1 k hk).2⟩

theorem take_one_single (m v : Nat) (hm : 0 < m) :
    ((List.replicate m 0).set 0 v).take 1 = [v] := by
  cases m with
  | zero => omega
  | succ m => simp [List.replicate_succ]

theorem row_default_ok (cfg : Config) (h : well_sized cfg) (ks : Kind) (i : Nat)
    (hi : i < Kind.count cfg ks) (kd : Kind) : row_ok cfg (row_default cfg ks i) kd := by
  obtain ⟨h1, h2, h3⟩ := h
  have hP := pio_count_cases cfg
  have hH : NUM_HW_MIDI_UARTS = 2 := rfl
  have hP0 : 0 < NUM_PIO_MIDI_UARTS cfg := by omega
  have hH0 : 0 < NUM_HW_MIDI_UARTS := by omega
  have hO0 : 0 < cfg.CFG_TUD_MIDI_NUMCABLES_OUT := by omega
  unfold row_ok live
  simp only [mem_kind_tokens]
  cases ks <;> cases kd <;>
    simp only [Kind.count, row_default, usb_default, pio_default, hw_default] at hi ⊢
  · split_ifs <;>
      simp [list_of, count_of, zero_routes, h3]
  · split_ifs with c1 c2
    · simp only [list_of, count_of, take_one_single _ _ hP0]
      refine ⟨by simp; omega, by simp, by simp, ?_⟩
      intro x hx
      exact ⟨i, c1, by simpa [token, Kind.base] using hx⟩
    · simp [list_of, count_of, zero_routes]
    · simp [list_of, count_of, zero_routes]
  · split_ifs with c1 c2
    · simp [list_of, count_of, zero_routes]
    · simp only [list_of, count_of, take_one_single _ _ hH0]
      refine ⟨by simp; omega, by simp, by simp, ?_⟩
      intro x hx
      refine ⟨i - NUM_PIO_MIDI_UARTS cfg, by omega, ?_⟩
      simpa [token, Kind.base] using hx
    · simp [list_of, count_of, zero_routes]
  · simp only [list_of, count_of, take_one_single _ _ hO0]
    refine ⟨by simp; omega, by simpa using h3, by simp, ?_⟩
    intro x hx
    exact ⟨i, by omega, by simpa [token, Kind.base] using hx⟩
  · simp [list_of, count_of, zero_routes]
  · simp [list_of, count_of, zero_routes]
  · simp only [list_of, count_of, take_one_single _ _ hO0]
    refine ⟨by simp; omega, by simpa using h3, by simp, ?_⟩
    intro x hx
    exact ⟨NUM_PIO_MIDI_UARTS cfg + i, by omega, by simpa [token, Kind.base] using hx⟩
  · simp [list_of, count_of, zero_routes]
  · simp [list_of, count_of, zero_routes]

/-! ## The live counts never exceed the port counts -/

theorem route_list_count (cap : Nat) (l : List Nat) (n o : Nat) (l2 : List Nat) (n2 : Nat)
    (b : Bool) (h : route_list cap l n o = some (l2, n2, b)) (hn : n ≤ cap) : n2 ≤ cap := by
  unfold route_list at h
  cases hs : scan l o n 0 with
  | none => simp [hs] at h
  | some r =>
    cases r with
    | some idx =>
      simp only [hs, Option.some.injEq, Prod.mk.injEq] at h
      omega
    | none =>
      simp only [hs] at h
      by_cases hc : n ≥ cap
      · simp only [hc, if_true, Option.some.injEq, Prod.mk.injEq] at h
        omega
      · simp only [hc, if_false] at h
        cases hst : store l n o with
        | none => simp [hst] at h
        | some l3 =>
          simp only [hst, Option.some.injEq, Prod.mk.injEq] at h
          have := Nat.mod_le (n + 1) 256
          omega

theorem unroute_list_count (cap : Nat) (hcap : cap ≤ 255) (l : List Nat) (n o : Nat)
    (l2 : List Nat) (n2 : Nat) (b : Bool)
    (h : unroute_list l n o = some (l2, n2, b)) (hn : n ≤ cap) : n2 ≤ cap := by
  unfold unroute_list at h
  cases hs : scan l o n 0 with
  | none => simp [hs] at h
  | some r =>
    cases r with
    | none =>
      simp only [hs, Option.some.injEq, Prod.mk.injEq] at h
      omega
    | some idx =>
      have hn1 : n ≠ 0 := by
        rintro rfl
        simp [scan] at hs
      simp only [hs] at h
      cases hv : l[n]? with
      | none => simp [hv] at h
      | some v =>
        simp only [hv] at h
        cases hst : store l idx v with
        | none => simp [hst] at h
        | some l3 =>
          simp only [hst, Option.some.injEq, Prod.mk.injEq] at h
          omega

theorem route_counts (cfg : Config) (r : midi_input_routes_t) (o : Nat)
    (r2 : midi_input_routes_t) (b : Bool) (h : route cfg r o = some (r2, b))
    (hr : counts_bounded cfg r) : counts_bounded cfg r2 := by
  have u := hr Kind.usb
  have p := hr Kind.pio
  have w := hr Kind.hw
  simp only [count_of, Kind.count] at u p w
  unfold route at h
  by_cases h1 : o ≤ 56
  · simp only [h1, if_true] at h
    cases hl : route_list cfg.CFG_TUD_MIDI_NUMCABLES_IN r.usb_midi_cable_list
        r.num_usb_midi_routes o with
    | none => simp [hl] at h
    | some q =>
      obtain ⟨l, n, c⟩ := q
      simp only [hl, Option.some.injEq, Prod.mk.injEq] at h
      obtain ⟨rfl, _⟩ := h
      have := route_list_count _ _ _ _ _ _ _ hl u
      intro k
      cases k <;> simp only [count_of, Kind.count] <;> assumption
  · by_cases h2 : o ≤ 70
    · simp only [h1, h2, if_true, if_false] at h
      cases hl : route_list (NUM_PIO_MIDI_UARTS cfg) r.pio_uart_number_list
          r.num_pio_uart_routes o with
      | none => simp [hl] at h
      | some q =>
        obtain ⟨l, n, c⟩ := q
        simp only [hl, Option.some.injEq, Prod.mk.injEq] at h
        obtain ⟨rfl, _⟩ := h
        have := route_list_count _ _ _ _ _ _ _ hl p
        intro k
        cases k <;> simp only [count_of, Kind.count] <;> assumption
    · by_cases h3 : o ≤ 72
      · simp only [h1, h2, h3, if_true, if_false] at h
        cases hl : route_list NUM_HW_MIDI_UARTS r.hw_uart_number_list
            r.num_hw_uart_routes o with
        | none => simp [hl] at h
        | some q =>
          obtain ⟨l, n, c⟩ := q
          simp only [hl, Option.some.injEq, Prod.mk.injEq] at h
          obtain ⟨rfl, _⟩ := h
          have := route_list_count _ _ _ _ _ _ _ hl w
          intro k
          cases k <;> simp only [count_of, Kind.count] <;> assumption
      · simp only [h1, h2, h3, if_false, Option.some.injEq, Prod.mk.injEq] at h
        obtain ⟨rfl, _⟩ := h
        exact hr

theorem unroute_counts (cfg : Config) (hc : well_sized cfg) (r : midi_input_routes_t)
    (o : Nat) (r2 : midi_input_routes_t) (b : Bool) (h : unroute r o = some (r2, b))
    (hr : counts_bounded cfg r) : counts_bounded cfg r2 := by
  have u := hr Kind.usb
  have p := hr Kind.pio
  have w := hr Kind.hw
  simp only [count_of, Kind.count] at u p w
  have cu : cfg.CFG_TUD_MIDI_NUMCABLES_IN ≤ 255 := by
    have := hc.2.1
    omega
  have cp : NUM_PIO_MIDI_UARTS cfg ≤ 255 := by
    have := pio_count_cases cfg
    omega
  have cw : NUM_HW_MIDI_UARTS ≤ 255 := by
    have : NUM_HW_MIDI_UARTS = 2 := rfl
    omega
  unfold unroute at h
  by_cases h1 : o ≤ 56
  · simp only [h1, if_true] at h
    cases hl : unroute_list r.usb_midi_cable_list r.num_usb_midi_routes o with
    | none => simp [hl] at h
    | some q =>
      obtain ⟨l, n, c⟩ := q
      simp only [hl, Option.some.injEq, Prod.mk.injEq] at h
      obtain ⟨rfl, _⟩ := h
      have := unroute_list_count _ cu _ _ _ _ _ _ hl u
      intro k
      cases k <;> simp only [count_of, Kind.count] <;> assumption
  · by_cases h2 : o ≤ 70
    · simp only [h1, h2, if_true, if_false] at h
      cases hl : unroute_list r.pio_uart_number_list r.num_pio_uart_routes o with
      | none => simp [hl] at h
      | some q =>
        obtain ⟨l, n, c⟩ := q
        simp only [hl, Option.some.injEq, Prod.mk.injEq] at h
        obtain ⟨rfl, _⟩ := h
        have := unroute_list_count _ cp _ _ _ _ _ _ hl p
        intro k
        cases k <;> simp only [count_of, Kind.count] <;> assumption
    · by_cases h3 : o ≤ 72
      · simp only [h1, h2, h3, if_true, if_false] at h
        cases hl : unroute_list r.hw_uart_number_list r.num_hw_uart_routes o with
        | none => simp [hl] at h
        | some q =>
          obtain ⟨l, n, c⟩ := q
          simp only [hl, Option.some.injEq, Prod.mk.injEq] at h
          obtain ⟨rfl, _⟩ := h
          have := unroute_list_count _ cw _ _ _ _ _ _ hl w
          intro k
          cases k <;> simp only [count_of, Kind.count] <;> assumption
      · simp only [h1, h2, h3, if_false, Option.some.injEq, Prod.mk.injEq] at h
        obtain ⟨rfl, _⟩ := h
        exact hr

theorem at_index_all (P : midi_input_routes_t → Prop) (t : List midi_input_routes_t)
    (i : Nat) (f : midi_input_routes_t → Option (midi_input_routes_t × Bool))
    (hf : ∀ r r2 b, f r = some (r2, b) → P r → P r2)
    (t2 : List midi_input_routes_t) (b : Bool) (h : at_index t i f = some (t2, b))
    (ht : ∀ r, r ∈ t → P r) : ∀ r, r ∈ t2 → P r := by
  unfold at_index at h
  cases hr : t[i]? with
  | none => simp [hr] at h
  | some r0 =>
    simp only [hr] at h
    cases hfr : f r0 with
    | none => simp [hfr] at h
    | some q =>
      obtain ⟨r2, c⟩ := q
      simp only [hfr, Option.some.injEq, Prod.mk.injEq] at h
      obtain ⟨rfl, _⟩ := h
      intro r hmem
      rcases List.mem_or_eq_of_mem_set hmem with hm | rfl
      · exact ht r hm
      · exact hf r0 r c hfr (ht r0 (List.getElem?_mem hr))

theorem connect_counts (cfg : Config) (st : Routes) (i o : Nat) (st2 : Routes) (b : Bool)
    (h : connect cfg st i o = some (st2, b))
    (hst : ∀ ks r, r ∈ table st ks → counts_bounded cfg r) :
    ∀ ks r, r ∈ table st2 ks → counts_bounded cfg r := by
  have hf : ∀ r r2 c, (fun r => route cfg r o) r = some (r2, c) →
      counts_bounded cfg r → counts_bounded cfg r2 :=
    fun r r2 c hr hb => route_counts cfg r o r2 c hr hb
  unfold connect at h
  by_cases hv : (is_port_valid cfg i && is_port_valid cfg o) = true
  · simp only [hv, if_true] at h
    by_cases h1 : i ≤ 56
    · simp only [h1, if_true] at h
      cases ha : at_index st.usb_routes (i - 49) (fun r => route cfg r o) with
      | none => simp [ha] at h
      | some q =>
        obtain ⟨t, c⟩ := q
        simp only [ha, Option.some.injEq, Prod.mk.injEq] at h
        obtain ⟨rfl, _⟩ := h
        have := at_index_all (counts_bounded cfg) _ _ _ hf _ _ ha (hst Kind.usb)
        intro ks
        cases ks
        · exact this
        · exact hst Kind.pio
        · exact hst Kind.hw
    · by_cases h2 : i ≤ 70
      · simp only [h1, h2, if_true, if_false] at h
        cases ha : at_index st.pio_routes (i - 65) (fun r => route cfg r o) with
        | none => simp [ha] at h
        | some q =>
          obtain ⟨t, c⟩ := q
          simp only [ha, Option.some.injEq, Prod.mk.injEq] at h
          obtain ⟨rfl, _⟩ := h
          have := at_index_all (counts_bounded cfg) _ _ _ hf _ _ ha (hst Kind.pio)
          intro ks
          cases ks
          · exact hst Kind.usb
          · exact this
          · exact hst Kind.hw
      · simp only [h1, h2, if_false] at h
        cases ha : at_index st.hw_routes (i - 71) (fun r => route cfg r o) with
        | none => simp [ha] at h
        | some q =>
          obtain ⟨t, c⟩ := q
          simp only [ha, Option.some.injEq, Prod.mk.injEq] at h
          obtain ⟨rfl, _⟩ := h
          have := at_index_all (counts_bounded cfg) _ _ _ hf _ _ ha (hst Kind.hw)
          intro ks
          cases ks
          · exact hst Kind.usb
          · exact hst Kind.pio
          · exact this
  · simp only [hv, if_false, Option.some.injEq, Prod.mk.injEq] at h
    obtain ⟨rfl, _⟩ := h
    exact hst

theorem disconnect_counts (cfg : Config) (hc : well_sized cfg) (st : Routes) (i o : Nat)
    (st2 : Routes) (b : Bool) (h : disconnect cfg st i o = some (st2, b))
    (hst : ∀ ks r, r ∈ table st ks → counts_bounded cfg r) :
    ∀ ks r, r ∈ table st2 ks → counts_bounded cfg r := by
  have hf : ∀ r r2 c, (fun r => unroute r o) r = some (r2, c) →
      counts_bounded cfg r → counts_bounded cfg r2 :=
    fun r r2 c hr hb => unroute_counts cfg hc r o r2 c hr hb
  unfold disconnect at h
  by_cases hv : (is_port_valid cfg i && is_port_valid cfg o) = true
  · simp only [hv, if_true] at h
    by_cases h1 : i ≤ 56
    · simp only [h1, if_true] at h
      cases ha : at_index st.usb_routes (i - 49) (fun r => unroute r o) with
      | none => simp [ha] at h
      | some q =>
        obtain ⟨t, c⟩ := q
        simp only [ha, Option.some.injEq, Prod.mk.injEq] at h
        obtain ⟨rfl, _⟩ := h
        have := at_index_all (counts_bounded cfg) _ _ _ hf _ _ ha (hst Kind.usb)
        intro ks
        cases ks
        · exact this
        · exact hst Kind.pio
        · exact hst Kind.hw
    · by_cases h2 : i ≤ 70
      · simp only [h1, h2, if_true, if_false] at h
        cases ha : at_index st.pio_routes (i - 65) (fun r => unroute r o) with
        | none => simp [ha] at h
        | some q =>
          obtain ⟨t, c⟩ := q
          simp only [ha, Option.some.injEq, Prod.mk.injEq] at h
          obtain ⟨rfl, _⟩ := h
          have := at_index_all (counts_bounded cfg) _ _ _ hf _ _ ha (hst Kind.pio)
          intro ks
          cases ks
          · exact hst Kind.usb
          · exact this
          · exact hst Kind.hw
      · simp only [h1, h2, if_false] at h
        cases ha : at_index st.hw_routes (i - 71) (fun r => unroute r o) with
        | none => simp [ha] at h
        | some q =>
          obtain ⟨t, c⟩ := q
          simp only [ha, Option.some.injEq, Prod.mk.injEq] at h
          obtain ⟨rfl, _⟩ := h
          have := at_index_all (counts_bounded cfg) _ _ _ hf _ _ ha (hst Kind.hw)
          intro ks
          cases ks
          · exact hst Kind.usb
          · exact hst Kind.pio
          · exact this
  · simp only [hv, if_false, Option.some.injEq, Prod.mk.injEq] at h
    obtain ⟨rfl, _⟩ := h
    exact hst

theorem default_counts (cfg : Config) (hc : well_sized cfg) :
    ∀ ks r, r ∈ table (default_routes cfg) ks → counts_bounded cfg r := by
  obtain ⟨h1, h2, h3⟩ := hc
  have hP := pio_count_cases cfg
  have hH : NUM_HW_MIDI_UARTS = 2 := rfl
  intro ks r hr k
  cases ks <;> simp only [table, default_routes, List.mem_map, List.mem_range] at hr <;>
    obtain ⟨i, _, rfl⟩ := hr
  · unfold usb_default
    split_ifs <;> cases k <;> simp only [count_of, Kind.count, zero_routes] <;> omega
  · cases k <;> simp only [pio_default, count_of, Kind.count, zero_routes] <;> omega
  · cases k <;> simp only [hw_default, count_of, Kind.count, zero_routes] <;> omega

theorem counts_bounded_reachable (cfg : Config) (hc : well_sized cfg) (st : Routes)
    (hr : Reachable cfg st) : ∀ ks r, r ∈ table st ks → counts_bounded cfg r := by
  induction hr with
  | boot st h0 =>
    rw [init_routes_eq cfg hc] at h0
    simp only [Option.some.injEq] at h0
    subst h0
    exact default_counts cfg hc
  | call st st2 c b _ hstep ih =>
    cases c with
    | connect i o => exact connect_counts cfg st i o st2 b hstep ih
    | disconnect i o => exact disconnect_counts cfg hc st i o st2 b hstep ih

theorem run_reachable (cfg : Config) :
    ∀ (cmds : List Cmd) (st st2 : Routes) (bs : List Bool),
      Reachable cfg st → run cfg st cmds = some (st2, bs) → Reachable cfg st2 := by
  intro cmds
  induction cmds with
  | nil =>
    intro st st2 bs hr h
    simp only [run, Option.some.injEq, Prod.mk.injEq] at h
    obtain ⟨rfl, _⟩ := h
    exact hr
  | cons c cs ih =>
    intro st st2 bs hr h
    rw [run] at h
    cases hs : step cfg st c with
    | none => simp [hs] at h
    | some q =>
      obtain ⟨s, b⟩ := q
      simp only [hs] at h
      cases hrun : run cfg s cs with
      | none => simp [hrun] at h
      | some q2 =>
        obtain ⟨s2, bs2⟩ := q2
        simp only [hrun, Option.some.injEq, Prod.mk.injEq] at h
        obtain ⟨rfl, _⟩ := h
        exact ih s s2 bs2 (Reachable.call st s c b hr hs) hrun

theorem boot_run_reachable (cfg : Config) (cmds : List Cmd) (st : Routes) (bs : List Bool)
    (h : boot_run cfg cmds = some (st, bs)) : Reachable cfg st := by
  unfold boot_run at h
  cases h0 : init_routes cfg with
  | none => simp [h0] at h
  | some s0 =>
    simp only [h0] at h
    exact run_reachable cfg cmds s0 st bs (Reachable.boot s0 h0) h

/-! ## The fan-out of one chunk -/

theorem dest_index_token (cfg : Config) (h : well_sized cfg) (k : Kind) (e : Nat)
    (he : e ∈ kind_tokens cfg k) :
    dest_index cfg k e = some (e - Kind.base k) ∧ Kind.base k ≤ e := by
  obtain ⟨j, hj, rfl⟩ := (mem_kind_tokens cfg k e).mp he
  obtain ⟨h1, h2, h3⟩ := h
  have hP := pio_count_cases cfg
  have hH : NUM_HW_MIDI_UARTS = 2 := rfl
  cases k <;> simp only [Kind.count] at hj <;> simp only [dest_index, token, Kind.base]
  · refine ⟨?_, by omega⟩
    congr 1
    omega
  · have a : 65 ≤ 65 + j ∧ 65 + j - 65 < NUM_PIO_MIDI_UARTS cfg := by omega
    simp only [a, and_self, if_true]
  · have a : 71 ≤ 71 + j ∧ 71 + j - 71 < NUM_HW_MIDI_UARTS := by omega
    simp only [a, and_self, if_true]

theorem send_loop_eq (ext : Extern) (cfg : Config) (h : well_sized cfg) (k : Kind)
    (list rx : List Nat) (nread : Nat) (hn : nread ≤ rx.length) :
    ∀ (n idx : Nat) (tr : List Effect), idx + n ≤ list.length →
      (∀ e, e ∈ (list.drop idx).take n → e ∈ kind_tokens cfg k) →
      send_loop ext cfg k list rx nread n idx tr =
        some (fan_out ext (rx.take nread)
          (((list.drop idx).take n).map (fun e => (k, e))) tr) := by
  intro n
  induction n with
  | zero =>
    intro idx tr _ _
    simp [send_loop, fan_out]
  | succ n ih =>
    intro idx tr hlen hin
    have hi : idx < list.length := by omega
    have hdrop :
        (list.drop idx).take (n + 1) = list[idx] :: (list.drop (idx + 1)).take n := by
      rw [List.drop_eq_getElem_cons hi, List.take_succ_cons]
    rw [hdrop] at hin
    have he := dest_index_token cfg h k list[idx] (hin _ (List.mem_cons_self _ _))
    have htl : ∀ e, e ∈ (list.drop (idx + 1)).take n → e ∈ kind_tokens cfg k :=
      fun e hm => hin e (List.mem_cons_of_mem _ hm)
    have hL : (rx.take nread).length = nread := List.length_take_of_le hn
    rw [send_loop, List.getElem?_eq_getElem hi]
    simp only [he.1]
    rw [ih (idx + 1) _ (by omega) htl, hdrop]
    simp only [List.map_cons, fan_out, hL]
    congr 2
    split <;> simp

theorem fan_out_append (ext : Extern) (chunk : List Nat) :
    ∀ (a b : List (Kind × Nat)) (tr : List Effect),
      fan_out ext chunk (a ++ b) tr = fan_out ext chunk b (fan_out ext chunk a tr) := by
  intro a
  induction a with
  | nil =>
    intro b tr
    rfl
  | cons p a ih =>
    intro b tr
    obtain ⟨k, e⟩ := p
    simp only [List.cons_append, fan_out]
    exact ih b _

theorem send_to_connected_eq (ext : Extern) (cfg : Config) (h : well_sized cfg)
    (r : midi_input_routes_t) (hr : ∀ k, row_in_range cfg r k) (rx : List Nat) (nread : Nat)
    (h0 : 0 < nread) (hn : nread ≤ rx.length) (connected : Bool) (tr : List Effect) :
    send_to_connected ext cfg r rx nread connected tr =
      some (fan_out ext (rx.take nread) (gated_dests connected r) tr) := by
  have hu := hr Kind.usb
  have hp := hr Kind.pio
  have hw := hr Kind.hw
  simp only [row_in_range, live, list_of, count_of] at hu hp hw
  have eu : send_loop ext cfg Kind.usb r.usb_midi_cable_list rx nread
      (if connected then r.num_usb_midi_routes else 0) 0 tr =
      some (fan_out ext (rx.take nread)
        (if connected then (live r Kind.usb).map (fun e => (Kind.usb, e)) else []) tr) := by
    cases connected with
    | false => simp [send_loop, fan_out]
    | true =>
      simp only [if_true]
      rw [send_loop_eq ext cfg h Kind.usb _ rx nread hn _ 0 tr (by omega)
        (by simpa using hu.2)]
      simp [live, list_of, count_of]
  have ep : ∀ t, send_loop ext cfg Kind.pio r.pio_uart_number_list rx nread
      r.num_pio_uart_routes 0 t =
      some (fan_out ext (rx.take nread) ((live r Kind.pio).map (fun e => (Kind.pio, e))) t) := by
    intro t
    rw [send_loop_eq ext cfg h Kind.pio _ rx nread hn _ 0 t (by omega) (by simpa using hp.2)]
    simp [live, list_of, count_of]
  have ew : ∀ t, send_loop ext cfg Kind.hw r.hw_uart_number_list rx nread
      r.num_hw_uart_routes 0 t =
      some (fan_out ext (rx.take nread) ((live r Kind.hw).map (fun e => (Kind.hw, e))) t) := by
    intro t
    rw [send_loop_eq ext cfg h Kind.hw _ rx nread hn _ 0 t (by omega) (by simpa using hw.2)]
    simp [live, list_of, count_of]
  unfold send_to_connected gated_dests
  simp only [h0, hn, if_true, eu, ep, ew, gt_iff_lt]
  rw [fan_out_append, fan_out_append]

theorem writes_to_append (k : Kind) (d : Nat) (a b : List Effect) :
    writes_to k d (a ++ b) = writes_to k d a ++ writes_to k d b := by
  induction a with
  | nil => rfl
  | cons x a ih =>
    cases x with
    | write k2 d2 c n =>
      by_cases hc : k2 = k ∧ d2 = d
      · simp [writes_to, hc, ih]
      · simp [writes_to, hc, ih]
    | poll _ _ _ => simpa [writes_to] using ih
    | log _ _ => simpa [writes_to] using ih
    | drain _ _ => simpa [writes_to] using ih

theorem drops_for_append (port : Nat) (a b : List Effect) :
    drops_for port (a ++ b) = drops_for port a ++ drops_for port b := by
  induction a with
  | nil => rfl
  | cons x a ih =>
    cases x with
    | log c p =>
      by_cases hc : p = port
      · simp [drops_for, hc, ih]
      · simp [drops_for, hc, ih]
    | poll _ _ _ => simpa [drops_for] using ih
    | write _ _ _ _ => simpa [drops_for] using ih
    | drain _ _ => simpa [drops_for] using ih

theorem fan_out_spec (ext : Extern) (chunk : List Nat) :
    ∀ (ds : List (Kind × Nat)) (tr : List Effect),
      ∃ new, fan_out ext chunk ds tr = tr ++ new ∧
        (∀ k d, (∀ p, p ∈ ds → ¬ (p.1 = k ∧ p.2 - Kind.base p.1 = d)) →
          writes_to k d new = []) ∧
        (∀ e, (∀ p, p ∈ ds → p.2 ≠ e) → drops_for e new = []) ∧
        ((ds.map Prod.snd).Nodup → (∀ p, p ∈ ds → Kind.base p.1 ≤ p.2) →
          ∀ p, p ∈ ds → ∃ n, writes_to p.1 (p.2 - Kind.base p.1) new = [(chunk, n)] ∧
            drops_for p.2 new =
              if n ≠ chunk.length then [dropped_count chunk.length n] else []) ∧
        (∀ p, p ∈ ds → ∃ n, Effect.write p.1 (p.2 - Kind.base p.1) chunk n ∈ new) ∧
        (∀ eff, eff ∈ new →
          (∃ p, p ∈ ds ∧ ∃ n, eff = Effect.write p.1 (p.2 - Kind.base p.1) chunk n) ∨
          ∃ c q, eff = Effect.log c q) := by
  intro ds
  induction ds with
  | nil =>
    intro tr
    refine ⟨[], by simp [fan_out], ?_, ?_, ?_, ?_, ?_⟩
    · intro _ _ _
      rfl
    · intro _ _
      rfl
    · intro _ _ p hp
      simp at hp
    · intro p hp
      simp at hp
    · intro eff he
      simp at he
  | cons p0 ds ih =>
    intro tr
    obtain ⟨k, e⟩ := p0
    generalize hN : ext_write ext k tr (e - Kind.base k) chunk % 4294967296 = N
    generalize hhd : (Effect.write k (e - Kind.base k) chunk N ::
        (if N ≠ chunk.length then [Effect.log (dropped_count chunk.length N) e] else []))
        = hd
    have hw : ∀ k1 d1, writes_to k1 d1 hd =
        if k = k1 ∧ e - Kind.base k = d1 then [(chunk, N)] else [] := by
      intro k1 d1
      rw [← hhd]
      by_cases hc : k = k1 ∧ e - Kind.base k = d1 <;> by_cases hne : N ≠ chunk.length <;>
        simp [writes_to, hc, hne]
    have hdp : ∀ e1, drops_for e1 hd =
        if N ≠ chunk.length ∧ e = e1 then [dropped_count chunk.length N] else [] := by
      intro e1
      rw [← hhd]
      by_cases hc : e = e1 <;> by_cases hne : N ≠ chunk.length <;>
        simp [drops_for, hc, hne]
    obtain ⟨new, hnew, hA, hB, hC, hD, hE⟩ := ih (tr ++ hd)
    refine ⟨hd ++ new, ?_, ?_, ?_, ?_, ?_, ?_⟩
    · simp only [fan_out, hN, hhd, hnew, List.append_assoc]
    · intro k1 d1 hno
      rw [writes_to_append, hw, hA k1 d1 (fun p hp => hno p (List.mem_cons_of_mem _ hp))]
      have := hno (k, e) (List.mem_cons_self _ _)
      simp only at this
      simp [this]
    · intro e1 hno
      rw [drops_for_append, hdp, hB e1 (fun p hp => hno p (List.mem_cons_of_mem _ hp))]
      have := hno (k, e) (List.mem_cons_self _ _)
      simp only at this
      simp [this]
    · intro hnd hbase p hp
      simp only [List.map_cons, List.nodup_cons, List.mem_map, not_exists, not_and] at hnd
      obtain ⟨hnot, hnd2⟩ := hnd
      have hbk : Kind.base k ≤ e := hbase (k, e) (List.mem_cons_self _ _)
      have hbase2 : ∀ q, q ∈ ds → Kind.base q.1 ≤ q.2 :=
        fun q hq => hbase q (List.mem_cons_of_mem _ hq)
      rcases List.mem_cons.mp hp with rfl | hp2
      · refine ⟨N, ?_, ?_⟩
        · rw [writes_to_append, hw]
          have : writes_to k (e - Kind.base k) new = [] := by
            apply hA
            intro q hq hc
            have h1 := hbase2 q hq
            have h2 := hnot q hq
            obtain ⟨hk, hd1⟩ := hc
            rw [hk] at hd1 h1
            exact h2 (by omega)
          simp [this]
        · rw [drops_for_append, hdp]
          have : drops_for e new = [] := hB e (fun q hq => hnot q hq)
          simp [this]
      · obtain ⟨n, hn1, hn2⟩ := hC hnd2 hbase2 p hp2
        have hpe : p.2 ≠ e := hnot p hp2
        have hpb := hbase2 p hp2
        refine ⟨n, ?_, ?_⟩
        · rw [writes_to_append, hw, hn1]
          have : ¬ (k = p.1 ∧ e - Kind.base k = p.2 - Kind.base p.1) := by
            rintro ⟨hk, hd1⟩
            rw [← hk] at hd1 hpb
            exact hpe (by omega)
          simp [this]
        · rw [drops_for_append, hdp, hn2]
          have : ¬ (N ≠ chunk.length ∧ e = p.2) := fun hc => hpe hc.2.symm
          simp [this]
    · intro p hp
      rcases List.mem_cons.mp hp with rfl | hp2
      · refine ⟨N, ?_⟩
        rw [← hhd]
        simp
      · obtain ⟨n, hn⟩ := hD p hp2
        exact ⟨n, List.mem_append_right _ hn⟩
    · intro eff he
      rcases List.mem_append.mp he with h1 | h2
      · rw [← hhd] at h1
        rcases List.mem_cons.mp h1 with rfl | h3
        · exact Or.inl ⟨(k, e), List.mem_cons_self _ _, N, rfl⟩
        · right
          by_cases hne : N ≠ chunk.length
          · rw [if_pos hne, List.mem_singleton] at h3
            exact ⟨_, _, h3⟩
          · rw [if_neg hne] at h3
            simp at h3
      · rcases hE eff h2 with ⟨p, hp, n, hn⟩ | hl
        · exact Or.inl ⟨p, List.mem_cons_of_mem _ hp, n, hn⟩
        · exact Or.inr hl

theorem mem_gated_dests (connected : Bool) (r : midi_input_routes_t) (k : Kind) (e : Nat) :
    (k, e) ∈ gated_dests connected r ↔
      (k = Kind.usb → connected = true) ∧ e ∈ live r k := by
  unfold gated_dests
  cases connected <;> cases k <;> simp

theorem tokens_kind_unique (cfg : Config) (h : well_sized cfg) (k1 k2 : Kind) (e : Nat)
    (h1 : e ∈ kind_tokens cfg k1) (h2 : e ∈ kind_tokens cfg k2) : k1 = k2 := by
  obtain ⟨j1, hj1, e1⟩ := (mem_kind_tokens cfg k1 e).mp h1
  obtain ⟨j2, hj2, e2⟩ := (mem_kind_tokens cfg k2 e).mp h2
  obtain ⟨a, b, c⟩ := h
  have hP := pio_count_cases cfg
  have hH : NUM_HW_MIDI_UARTS = 2 := rfl
  cases k1 <;> cases k2 <;> simp only [Kind.count, token, Kind.base] at hj1 hj2 e1 e2 <;>
    first | rfl | omega

theorem gated_ports_nodup (cfg : Config) (h : well_sized cfg) (connected : Bool)
    (r : midi_input_routes_t) (hr : ∀ k, row_in_range cfg r k)
    (hnd : ∀ k, (live r k).Nodup) : ((gated_dests connected r).map Prod.snd).Nodup := by
  have hdis : ∀ k1 k2, k1 ≠ k2 → ∀ x, x ∈ live r k1 → x ∈ live r k2 → False := by
    intro k1 k2 hne x h1 h2
    exact hne (tokens_kind_unique cfg h k1 k2 x ((hr k1).2 x h1) ((hr k2).2 x h2))
  have hmap : ∀ k, ((live r k).map (fun e => (k, e))).map Prod.snd = live r k := by
    intro k
    simp [List.map_map, Function.comp_def]
  unfold gated_dests
  rw [List.map_append, List.map_append, hmap, hmap]
  cases connected with
  | false =>
    simp only [Bool.false_eq_true, if_false, List.map_nil, List.nil_append]
    exact List.nodup_append.mpr ⟨hnd Kind.pio, hnd Kind.hw,
      fun x h1 h2 => hdis Kind.pio Kind.hw (by decide) x h1 h2⟩
  | true =>
    simp only [if_true, hmap]
    refine List.nodup_append.mpr ⟨List.nodup_append.mpr ⟨hnd Kind.usb, hnd Kind.pio,
      fun x h1 h2 => hdis Kind.usb Kind.pio (by decide) x h1 h2⟩, hnd Kind.hw, ?_⟩
    intro x h1 h2
    rcases List.mem_append.mp h1 with h3 | h3
    · exact hdis Kind.usb Kind.hw (by decide) x h3 h2
    · exact hdis Kind.pio Kind.hw (by decide) x h3 h2

theorem dropped_count_short (nread n : Nat) (h8 : nread ≤ 255) (hlt : n < nread) :
    dropped_count nread n = nread - n := by
  unfold dropped_count
  omega

theorem row_ok_in_range (cfg : Config) (r : midi_input_routes_t) (k : Kind)
    (h : row_ok cfg r k) : row_in_range cfg r k :=
  ⟨h.1, h.2.2.2⟩


/-! ## One dispatch cycle -/

theorem fill_spec (rx bytes : List Nat) (hb : bytes.length ≤ rx.length) :
    ∃ rx2, fill rx bytes = some rx2 ∧ rx2.length = rx.length ∧
      rx2.take bytes.length = bytes := by
  refine ⟨bytes ++ rx.drop bytes.length, by simp [fill, hb], ?_, ?_⟩
  · simp only [List.length_append, List.length_drop]
    omega
  · simp

theorem ext_poll_bounded (ext : Extern) (hp : polls_bounded ext) (k : Kind)
    (tr : List Effect) (idx n : Nat) : (ext_poll ext k tr idx n).length ≤ n := by
  cases k
  · simp [ext_poll]
  · exact (hp tr idx n).1
  · exact (hp tr idx n).2.1

/-- One poll of an input and the fan-out of what it delivered. -/
theorem poll_send_spec (ext : Extern) (cfg : Config) (h : well_sized cfg)
    (r : midi_input_routes_t) (hr : ∀ k, row_in_range cfg r k) (connected : Bool)
    (rx bytes : List Nat) (hrx : rx.length = 48) (hb : bytes.length ≤ 48)
    (tr : List Effect) :
    ∃ rx2 new, fill rx bytes = some rx2 ∧ rx2.length = 48 ∧
      send_to_connected ext cfg r rx2 (bytes.length % 256) connected tr = some (tr ++ new) ∧
      (∀ kd e, bytes ≠ [] → (kd = Kind.usb → connected = true) → e ∈ live r kd →
        ∃ n, Effect.write kd (e - Kind.base kd) bytes n ∈ new) ∧
      (∀ eff, eff ∈ new →
        (∃ kd e n, eff = Effect.write kd (e - Kind.base kd) bytes n ∧ bytes ≠ [] ∧
          (kd = Kind.usb → connected = true) ∧ e ∈ live r kd) ∨
        ∃ c q, eff = Effect.log c q) := by
  obtain ⟨rx2, hfill, hlen, htake⟩ := fill_spec rx bytes (by omega)
  have hmod : bytes.length % 256 = bytes.length := Nat.mod_eq_of_lt (by omega)
  rw [hmod]
  by_cases hnil : bytes = []
  · subst hnil
    refine ⟨rx2, [], hfill, by omega, by simp [send_to_connected], ?_, ?_⟩
    · intro _ _ hne
      exact absurd rfl hne
    · intro eff he
      simp at he
  · have h0 : 0 < bytes.length := List.length_pos.mpr hnil
    obtain ⟨new, hnew, _, _, _, hD, hE⟩ := fan_out_spec ext bytes (gated_dests connected r) tr
    refine ⟨rx2, new, hfill, by omega, ?_, ?_, ?_⟩
    · rw [send_to_connected_eq ext cfg h r hr rx2 bytes.length h0 (by omega) connected tr,
        htake, hnew]
    · intro kd e _ hg he
      exact hD (kd, e) ((mem_gated_dests connected r kd e).mpr ⟨hg, he⟩)
    · intro eff he
      rcases hE eff he with ⟨p, hp, n, hn⟩ | hl
      · obtain ⟨kd, e⟩ := p
        obtain ⟨hg, hlive⟩ := (mem_gated_dests connected r kd e).mp hp
        exact Or.inl ⟨kd, e, n, hn, hnil, hg, hlive⟩
      · exact Or.inr hl

theorem poll_loop_spec (ext : Extern) (cfg : Config) (h : well_sized cfg) (st : Routes)
    (hst : dispatch_ok cfg st) (hp : polls_bounded ext) (k : Kind) (connected : Bool)
    (tr rx) (hrx : rx.length = 48) :
    ∀ n, n ≤ Kind.count cfg k →
      ∃ new rx2, poll_loop ext cfg st k connected tr rx n = some (tr ++ new, rx2) ∧
        rx2.length = 48 ∧
        (∀ idx, idx < n → ∃ b, Effect.poll k idx b ∈ new) ∧
        (∀ k2 idx b, Effect.poll k2 idx b ∈ new → k2 = k) ∧
        (∀ idx b r, Effect.poll k idx b ∈ new → b ≠ [] → (table st k)[idx]? = some r →
          ∀ kd e, (kd = Kind.usb → connected = true) → e ∈ live r kd →
            ∃ m, Effect.write kd (e - Kind.base kd) b m ∈ new) ∧
        (∀ kd d c m, Effect.write kd d c m ∈ new →
          c ≠ [] ∧ (kd = Kind.usb → connected = true) ∧
          ∃ idx r e, Effect.poll k idx c ∈ new ∧ (table st k)[idx]? = some r ∧
            e ∈ live r kd ∧ d = e - Kind.base kd) := by
  intro n
  induction n with
  | zero =>
    intro _
    refine ⟨[], rx, by simp [poll_loop], hrx, ?_, ?_, ?_, ?_⟩
    · intro idx hidx
      omega
    · intro _ _ _ hm
      simp at hm
    · intro _ _ _ hm
      simp at hm
    · intro _ _ _ _ hm
      simp at hm
  | succ n ih =>
    intro hn
    obtain ⟨new, rx1, hloop, hlen1, hA, hB, hC, hD⟩ := ih (by omega)
    have hnlen : n < (table st k).length := by
      rw [(hst k).1]
      omega
    have hrow : (table st k)[n]? = some (table st k)[n] := List.getElem?_eq_getElem hnlen
    have hr : ∀ kd, row_in_range cfg (table st k)[n] kd :=
      (hst k).2 _ (List.getElem_mem hnlen)
    have hb : (ext_poll ext k (tr ++ new) n rx1.length).length ≤ 48 := by
      have := ext_poll_bounded ext hp k (tr ++ new) n rx1.length
      omega
    generalize hbytes : ext_poll ext k (tr ++ new) n rx1.length = bytes at hb
    obtain ⟨rx2, fnew, hfill, hlen2, hsend, hE, hF⟩ :=
      poll_send_spec ext cfg h (table st k)[n] hr connected rx1 bytes hlen1 hb
        (tr ++ new ++ [Effect.poll k n bytes])
    refine ⟨new ++ [Effect.poll k n bytes] ++ fnew, rx2, ?_, hlen2, ?_, ?_, ?_, ?_⟩
    · have hsend2 := hsend
      simp only [List.append_assoc] at hsend2
      rw [poll_loop, hloop]
      simp only [hbytes, hfill, hrow, List.append_assoc, hsend2]
    · intro idx hidx
      by_cases hlt : idx < n
      · obtain ⟨b, hb1⟩ := hA idx hlt
        exact ⟨b, List.mem_append_left _ (List.mem_append_left _ hb1)⟩
      · have : idx = n := by omega
        subst this
        exact ⟨bytes,
          List.mem_append_left _ (List.mem_append_right _ (List.mem_singleton.mpr rfl))⟩
    · intro k2 idx b hm
      rcases List.mem_append.mp hm with h1 | h1
      · rcases List.mem_append.mp h1 with h2 | h2
        · exact hB k2 idx b h2
        · simp only [List.mem_singleton, Effect.poll.injEq] at h2
          exact h2.1
      · rcases hF _ h1 with ⟨_, _, _, he, _⟩ | ⟨_, _, he⟩ <;> cases he
    · intro idx b r hm hne hrow2 kd e hg he
      rcases List.mem_append.mp hm with h1 | h1
      · rcases List.mem_append.mp h1 with h2 | h2
        · obtain ⟨m, hm2⟩ := hC idx b r h2 hne hrow2 kd e hg he
          exact ⟨m, List.mem_append_left _ (List.mem_append_left _ hm2)⟩
        · simp only [List.mem_singleton, Effect.poll.injEq] at h2
          obtain ⟨_, hi, hb2⟩ := h2
          subst hi
          subst hb2
          rw [hrow] at hrow2
          simp only [Option.some.injEq] at hrow2
          subst hrow2
          obtain ⟨m, hm2⟩ := hE kd e hne hg he
          exact ⟨m, List.mem_append_right _ hm2⟩
      · rcases hF _ h1 with ⟨_, _, _, he2, _⟩ | ⟨_, _, he2⟩ <;> cases he2
    · intro kd d c m hm
      rcases List.mem_append.mp hm with h1 | h1
      · rcases List.mem_append.mp h1 with h2 | h2
        · obtain ⟨a1, a2, idx, r, e, a3, a4, a5, a6⟩ := hD kd d c m h2
          exact ⟨a1, a2, idx, r, e, List.mem_append_left _ (List.mem_append_left _ a3),
            a4, a5, a6⟩
        · simp at h2
      · rcases hF _ h1 with ⟨kd2, e, m2, he, hne, hg, hlive⟩ | ⟨_, _, he⟩
        · simp only [Effect.write.injEq] at he
          obtain ⟨rfl, rfl, rfl, rfl⟩ := he
          exact ⟨hne, hg, n, _, e,
            List.mem_append_left _ (List.mem_append_right _ (List.mem_singleton.mpr rfl)),
            hrow, hlive, rfl⟩
        · cases he

theorem uart_phase_spec (ext : Extern) (cfg : Config) (h : well_sized cfg) (st : Routes)
    (hst : dispatch_ok cfg st) (hp : polls_bounded ext) (connected : Bool)
    (rx : List Nat) (hrx : rx.length = 48) (tr : List Effect) :
    ∃ new, poll_midi_uarts_rx ext cfg st connected rx tr = some (tr ++ new) ∧
      fans_out cfg st connected new ∧ (∀ idx b, Effect.poll Kind.usb idx b ∉ new) := by
  obtain ⟨np, rx1, hl1, hlen1, pA, pB, pC, pD⟩ :=
    poll_loop_spec ext cfg h st hst hp Kind.pio connected tr rx hrx
      (NUM_PIO_MIDI_UARTS cfg) (Nat.le_refl _)
  obtain ⟨nh, rx2, hl2, _, wA, wB, wC, wD⟩ :=
    poll_loop_spec ext cfg h st hst hp Kind.hw connected (tr ++ np) rx1 hlen1
      NUM_HW_MIDI_UARTS (Nat.le_refl _)
  refine ⟨np ++ nh, ?_, ⟨?_, ?_, ?_⟩, ?_⟩
  · unfold poll_midi_uarts_rx
    rw [hl1]
    simp only [hl2, List.append_assoc]
  · intro k idx hk hidx
    cases k with
    | usb => exact absurd rfl hk
    | pio =>
      obtain ⟨b, hb⟩ := pA idx hidx
      exact ⟨b, List.mem_append_left _ hb⟩
    | hw =>
      obtain ⟨b, hb⟩ := wA idx hidx
      exact ⟨b, List.mem_append_right _ hb⟩
  · intro k idx b r hm hne hrow kd e hg he
    rcases List.mem_append.mp hm with h1 | h1
    · have hk := pB k idx b h1
      subst hk
      obtain ⟨m, hm2⟩ := pC idx b r h1 hne hrow kd e hg he
      exact ⟨m, List.mem_append_left _ hm2⟩
    · have hk := wB k idx b h1
      subst hk
      obtain ⟨m, hm2⟩ := wC idx b r h1 hne hrow kd e hg he
      exact ⟨m, List.mem_append_right _ hm2⟩
  · intro kd d c m hm
    rcases List.mem_append.mp hm with h1 | h1
    · obtain ⟨a1, a2, idx, r, e, a3, a4, a5, a6⟩ := pD kd d c m h1
      exact ⟨a1, a2, Kind.pio, idx, r, e, List.mem_append_left _ a3, a4, a5, a6⟩
    · obtain ⟨a1, a2, idx, r, e, a3, a4, a5, a6⟩ := wD kd d c m h1
      exact ⟨a1, a2, Kind.hw, idx, r, e, List.mem_append_right _ a3, a4, a5, a6⟩
  · intro idx b hm
    rcases List.mem_append.mp hm with h1 | h1
    · exact absurd (pB _ _ _ h1) (by decide)
    · exact absurd (wB _ _ _ h1) (by decide)

theorem usb_read_loop_sound (ext : Extern) (cfg : Config) (h : well_sized cfg) (st : Routes)
    (hst : dispatch_ok cfg st) (hp : polls_bounded ext) (connected : Bool) :
    ∀ (fuel : Nat) (rx : List Nat) (tr tr2 : List Effect), rx.length = 48 →
      usb_read_loop ext cfg st connected fuel rx tr = some tr2 →
      ∃ new, tr2 = tr ++ new ∧
        ∀ kd d c m, Effect.write kd d c m ∈ new →
          c ≠ [] ∧ ∃ cable r e, Effect.poll Kind.usb cable c ∈ new ∧
            st.usb_routes[cable % 256]? = some r ∧ e ∈ live r kd ∧ d = e - Kind.base kd := by
  intro fuel
  induction fuel with
  | zero =>
    intro rx tr tr2 _ hrun
    simp [usb_read_loop] at hrun
  | succ fuel ih =>
    intro rx tr tr2 hrx hrun
    rw [usb_read_loop] at hrun
    generalize hres : ext.tud_midi_demux_stream_read tr rx.length = res at hrun
    obtain ⟨cable, bytes⟩ := res
    have hb : bytes.length ≤ 48 := by
      have := (hp tr 0 rx.length).2.2
      rw [hres] at this
      simp only at this
      omega
    simp only at hrun
    by_cases hnil : bytes = []
    · subst hnil
      obtain ⟨rx1, hfill, _, _⟩ := fill_spec rx [] (by simp)
      rw [hfill] at hrun
      simp only [List.length_nil, Nat.zero_mod, gt_iff_lt, Nat.lt_irrefl, if_false,
        Option.some.injEq] at hrun
      refine ⟨[Effect.poll Kind.usb cable []], hrun.symm, ?_⟩
      intro kd d c m hm
      simp at hm
    · have h0 : 0 < bytes.length := List.length_pos.mpr hnil
      have hpos : bytes.length % 4294967296 > 0 := by omega
      cases hrow : st.usb_routes[cable % 256]? with
      | none =>
        obtain ⟨rx1, hfill, _, _⟩ := fill_spec rx bytes (by omega)
        rw [hfill] at hrun
        simp [hpos, hrow] at hrun
      | some r =>
        have hr : ∀ kd, row_in_range cfg r kd :=
          (hst Kind.usb).2 r (List.getElem?_mem hrow)
        obtain ⟨rx1, fnew, hfill, hlen1, hsend, _, hF⟩ :=
          poll_send_spec ext cfg h r hr connected rx bytes hrx hb
            (tr ++ [Effect.poll Kind.usb cable bytes])
        rw [hfill] at hrun
        simp only [hpos, if_true, hrow, hsend] at hrun
        obtain ⟨new, hnew, hW⟩ := ih rx1 _ tr2 hlen1 hrun
        refine ⟨[Effect.poll Kind.usb cable bytes] ++ fnew ++ new, ?_, ?_⟩
        · rw [hnew]
          simp only [List.append_assoc]
        · intro kd d c m hm
          rcases List.mem_append.mp hm with h1 | h1
          · rcases List.mem_append.mp h1 with h3 | h3
            · simp at h3
            · rcases hF _ h3 with ⟨kd2, e, m2, he, hne, _, hlive⟩ | ⟨_, _, he⟩
              · simp only [Effect.write.injEq] at he
                obtain ⟨rfl, rfl, rfl, rfl⟩ := he
                exact ⟨hne, cable, r, e,
                  List.mem_append_left _ (List.mem_append_left _ (List.mem_singleton.mpr rfl)),
                  hrow, hlive, rfl⟩
              · cases he
          · obtain ⟨a1, cb, r2, e, a2, a3, a4, a5⟩ := hW kd d c m h1
            exact ⟨a1, cb, r2, e, List.mem_append_right _ a2, a3, a4, a5⟩

theorem drain_append (cfg : Config) (a b : List Effect) :
    drain_serial_port_tx_buffers cfg (a ++ b) = a ++ drain_serial_port_tx_buffers cfg b := by
  simp [drain_serial_port_tx_buffers, List.append_assoc]

theorem mem_drain (cfg : Config) (new : List Effect) (eff : Effect)
    (hm : eff ∈ drain_serial_port_tx_buffers cfg new) :
    eff ∈ new ∨ ∃ k idx, eff = Effect.drain k idx := by
  unfold drain_serial_port_tx_buffers at hm
  rcases List.mem_append.mp hm with h1 | h1
  · rcases List.mem_append.mp h1 with h2 | h2
    · exact Or.inl h2
    · obtain ⟨i, _, rfl⟩ := List.mem_map.mp h2
      exact Or.inr ⟨_, _, rfl⟩
  · obtain ⟨i, _, rfl⟩ := List.mem_map.mp h1
    exact Or.inr ⟨_, _, rfl⟩

theorem default_dispatch_ok (cfg : Config) (h : well_sized cfg) :
    dispatch_ok cfg (default_routes cfg) := by
  intro ks
  constructor
  · cases ks <;> simp [table, default_routes, Kind.count]
  · intro r hr kd
    obtain ⟨i, hi⟩ := List.mem_iff_getElem?.mp hr
    have hlt : i < Kind.count cfg ks := by
      rcases List.getElem?_eq_some.mp hi with ⟨hlt, _⟩
      cases ks <;> simpa [table, default_routes, Kind.count] using hlt
    rw [table_default_get cfg ks i hlt] at hi
    simp only [Option.some.injEq] at hi
    subst hi
    exact row_ok_in_range _ _ _ (row_default_ok cfg h ks i hlt kd)

theorem polls_bounded_idle : polls_bounded ext_idle := by
  intro tr idx n
  refine ⟨?_, by simp [ext_idle], by simp [ext_idle]⟩
  simp only [ext_idle]
  split
  · exact List.length_take_le _ _
  · simp

theorem polls_bounded_host : polls_bounded ext_host := by
  intro tr idx n
  refine ⟨?_, by simp [ext_host, ext_idle], by simp [ext_host, ext_idle]⟩
  simp only [ext_host, ext_idle]
  split
  · exact List.length_take_le _ _
  · simp

/-! ## Dispatching from a RouteSet that `disconnect` has damaged

The theorems on the fan-out assume that the live entries of a RouteSet are
port tokens without duplicates. The two evaluations below show what
`send_to_connected` does on reachable RouteSets where the swap of `unroute`
has broken that. -/

/-- After `connect('1','B')` and `disconnect('1','A')` the software-UART list
of source `'1'` has the live entry 0; fanning a chunk out from it indexes
`pio_midi_uarts` with `0 - 'A'`, outside the array. -/
theorem stale_entry_leaves_uart_array :
    ∃ (s : Routes) (r : midi_input_routes_t),
      boot_run cfg6 [Cmd.connect 49 66, Cmd.disconnect 49 65] = some (s, [true, true]) ∧
      s.usb_routes[0]? = some r ∧
      live r Kind.pio = [0] ∧
      dest_index cfg6 Kind.pio 0 = none ∧
      send_to_connected ext_host cfg6 r [144, 60, 100] 3 true [] = none :=
  ⟨_, _, rfl, rfl, rfl, rfl, rfl⟩

/-- After four connects, two disconnects, a connect and a disconnect the USB
list of source `'1'` has the live entries `['4','4']`; a chunk fanned out from
it is offered to USB cable 3 twice. -/
theorem duplicate_entry_written_twice :
    ∃ (s : Routes) (r : midi_input_routes_t) (new : List Effect),
      boot_run cfg6 [Cmd.connect 49 49, Cmd.connect 49 50, Cmd.connect 49 51,
          Cmd.connect 49 52, Cmd.disconnect 49 51, Cmd.disconnect 49 49,
          Cmd.connect 49 53, Cmd.disconnect 49 50]
        = some (s, [true, true, true, true, true, true, true, true]) ∧
      s.usb_routes[0]? = some r ∧
      live r Kind.usb = [52, 52] ∧
      send_to_connected ext_host cfg6 r [144, 60, 100] 3 true [] = some new ∧
      writes_to Kind.usb 3 new = [([144, 60, 100], 2), ([144, 60, 100], 2)] :=
  ⟨_, _, _, rfl, rfl, rfl, rfl, rfl⟩

/-! ## The claims -/

/-- C1 (the code breaks it). After `init_routes` and `connect('1','B')` in the
6-cable build, source `'1'` reaches `'A'` and `'B'`. `disconnect('1','A')`
returns true and lowers the live count from 2 to 1, but the vacated slot is
filled from index 2 (beyond the live entries) and `'B'` is left outside the
live range: `is_connected('1','B')` turns from true to false. -/
theorem C1_disconnect_loses_other_destination :
    ∃ s1 s2 : Routes,
      boot_run cfg6 [Cmd.connect 49 66] = some (s1, [true]) ∧
      Reachable cfg6 s1 ∧
      is_port_valid cfg6 49 = true ∧ is_port_valid cfg6 65 = true ∧
      is_port_valid cfg6 66 = true ∧
      is_connected cfg6 s1 49 65 = some true ∧
      is_connected cfg6 s1 49 66 = some true ∧
      s1.usb_routes[0]?.map (fun r => (r.pio_uart_number_list, r.num_pio_uart_routes))
        = some ([65, 66, 0, 0], 2) ∧
      disconnect cfg6 s1 49 65 = some (s2, true) ∧
      s2.usb_routes[0]?.map (fun r => (r.pio_uart_number_list, r.num_pio_uart_routes))
        = some ([0, 66, 0, 0], 1) ∧
      is_connected cfg6 s2 49 66 = some false :=
  ⟨_, _, rfl, boot_run_reachable cfg6
      [Cmd.connect 49 66] _ _ rfl, rfl, rfl, rfl, rfl, rfl, rfl, rfl, rfl, rfl⟩

/-- C2 (the code breaks it). In the 6-cable build, after `connect('1','B')`,
`disconnect('1','A')`, `connect('1','B')`, `connect('1','C')`,
`connect('1','D')` (all returning true) the software-UART list of source `'1'`
holds a stale 0 and is full, so `connect('1','A')` on two valid tokens returns
false and `is_connected('1','A')` is false afterwards. Moreover, right after
`init_routes`, the valid lower-case token `'a'` is refused by `connect`. -/
theorem C2_connect_fails_on_valid_tokens :
    (∃ s : Routes,
      boot_run cfg6 [Cmd.connect 49 66, Cmd.disconnect 49 65, Cmd.connect 49 66,
          Cmd.connect 49 67, Cmd.connect 49 68]
        = some (s, [true, true, true, true, true]) ∧
      Reachable cfg6 s ∧
      is_port_valid cfg6 49 = true ∧ is_port_valid cfg6 65 = true ∧
      connect cfg6 s 49 65 = some (s, false) ∧
      is_connected cfg6 s 49 65 = some false) ∧
    (∃ s0 : Routes,
      init_routes cfg6 = some s0 ∧
      Reachable cfg6 s0 ∧
      is_port_valid cfg6 49 = true ∧ is_port_valid cfg6 97 = true ∧
      connect cfg6 s0 49 97 = some (s0, false) ∧
      is_connected cfg6 s0 49 97 = some false) :=
  ⟨⟨_, rfl, boot_run_reachable cfg6
      [Cmd.connect 49 66, Cmd.disconnect 49 65, Cmd.connect 49 66, Cmd.connect 49 67,
       Cmd.connect 49 68] _ _ rfl, rfl, rfl, rfl, rfl⟩,
    ⟨_, rfl, Reachable.boot _ rfl, rfl, rfl, rfl, rfl⟩⟩

/-- C3 (the code breaks it). In the 6-cable build, after `connect('1','B')`,
`connect('1','C')`, `disconnect('1','B')`, `disconnect('1','A')`,
`connect('1','D')` (all returning true) the software-UART list of source `'1'`
is `['C','D','C',0]` with live count 2. `connect('1','C')` then
`disconnect('1','C')` both return true, yet the vacated slot 0 is refilled with
the stale `'C'` from index 2 and `is_connected('1','C')` is still true. -/
theorem C3_still_connected_after_disconnect :
    ∃ s1 s2 s3 : Routes,
      boot_run cfg6 [Cmd.connect 49 66, Cmd.connect 49 67, Cmd.disconnect 49 66,
          Cmd.disconnect 49 65, Cmd.connect 49 68]
        = some (s1, [true, true, true, true, true]) ∧
      Reachable cfg6 s1 ∧
      s1.usb_routes[0]?.map (fun r => (r.pio_uart_number_list, r.num_pio_uart_routes))
        = some ([67, 68, 67, 0], 2) ∧
      is_port_valid cfg6 49 = true ∧ is_port_valid cfg6 67 = true ∧
      connect cfg6 s1 49 67 = some (s2, true) ∧
      disconnect cfg6 s2 49 67 = some (s3, true) ∧
      s3.usb_routes[0]?.map (fun r => (r.pio_uart_number_list, r.num_pio_uart_routes))
        = some ([67, 68, 67, 0], 1) ∧
      is_connected cfg6 s3 49 67 = some true :=
  ⟨_, _, _, rfl, boot_run_reachable cfg6
      [Cmd.connect 49 66, Cmd.connect 49 67, Cmd.disconnect 49 66, Cmd.disconnect 49 65,
       Cmd.connect 49 68] _ _ rfl, rfl, rfl, rfl, rfl, rfl, rfl, rfl⟩

/-- C4. When the port counts are consistent, `init_routes` succeeds and in the
state it leaves: USB cable `k` and software UART `k` are connected both ways
for every `k` below `NUM_PIO_MIDI_UARTS`; USB cable `NUM_PIO_MIDI_UARTS + j`
and hardware UART `j` are connected both ways for every `j` below
`NUM_HW_MIDI_UARTS`; `is_connected` is false for every other pair of ports;
and no pair of tokens at all other than those default pairs makes
`is_connected` true. -/
theorem C4_default_boot_state (cfg : Config) (h : well_sized cfg) :
    ∃ st, init_routes cfg = some st ∧
      (∀ k, k < NUM_PIO_MIDI_UARTS cfg →
        is_connected cfg st (token Kind.usb k) (token Kind.pio k) = some true ∧
        is_connected cfg st (token Kind.pio k) (token Kind.usb k) = some true) ∧
      (∀ j, j < NUM_HW_MIDI_UARTS →
        is_connected cfg st (token Kind.usb (NUM_PIO_MIDI_UARTS cfg + j)) (token Kind.hw j)
          = some true ∧
        is_connected cfg st (token Kind.hw j) (token Kind.usb (NUM_PIO_MIDI_UARTS cfg + j))
          = some true) ∧
      (∀ ks i kd j, i < Kind.count cfg ks → j < Kind.count cfg kd →
        ¬ default_edge cfg ks i kd j →
        is_connected cfg st (token ks i) (token kd j) = some false) ∧
      (∀ a b, is_connected cfg st a b = some true →
        ∃ ks i kd j, a = token ks i ∧ b = token kd j ∧ default_edge cfg ks i kd j) := by
  have hall : ∀ ks i kd j, i < Kind.count cfg ks → j < Kind.count cfg kd →
      (default_edge cfg ks i kd j →
        is_connected cfg (default_routes cfg) (token ks i) (token kd j) = some true) ∧
      (¬ default_edge cfg ks i kd j →
        is_connected cfg (default_routes cfg) (token ks i) (token kd j) = some false) := by
    intro ks i kd j hi hj
    obtain ⟨c, e, hc⟩ := is_connected_default cfg h ks i hi kd j hj
    rw [e]
    constructor
    · intro hd
      rw [hc.mpr hd]
    · intro hd
      cases c with
      | false => rfl
      | true => exact absurd (hc.mp rfl) hd
  obtain ⟨h1, h2, h3⟩ := h
  have hH : NUM_HW_MIDI_UARTS = 2 := rfl
  refine ⟨default_routes cfg, init_routes_eq cfg ⟨h1, h2, h3⟩, ?_, ?_, ?_, ?_⟩
  · intro k hk
    have hkU : k < cfg.CFG_TUD_MIDI_NUMCABLES_IN := by omega
    exact ⟨(hall Kind.usb k Kind.pio k hkU hk).1 (Or.inl ⟨rfl, rfl, rfl, hk⟩),
      (hall Kind.pio k Kind.usb k hk hkU).1 (Or.inr (Or.inl ⟨rfl, rfl, rfl, hk⟩))⟩
  · intro j hj
    have hjU : NUM_PIO_MIDI_UARTS cfg + j < cfg.CFG_TUD_MIDI_NUMCABLES_IN := by omega
    exact ⟨(hall Kind.usb _ Kind.hw j hjU hj).1 (Or.inr (Or.inr (Or.inl ⟨rfl, rfl, rfl, hj⟩))),
      (hall Kind.hw j Kind.usb _ hj hjU).1 (Or.inr (Or.inr (Or.inr ⟨rfl, rfl, rfl, hj⟩)))⟩
  · intro ks i kd j hi hj hd
    exact (hall ks i kd j hi hj).2 hd
  · intro a b hab
    exact default_only_edges cfg ⟨h1, h2, h3⟩ a b hab

/-- Witness for C4 in the 6-cable build. -/
theorem C4_default_boot_state_witness :
    well_sized cfg6 ∧
    ∃ st, init_routes cfg6 = some st ∧
      (∀ k, k < NUM_PIO_MIDI_UARTS cfg6 →
        is_connected cfg6 st (token Kind.usb k) (token Kind.pio k) = some true ∧
        is_connected cfg6 st (token Kind.pio k) (token Kind.usb k) = some true) ∧
      (∀ j, j < NUM_HW_MIDI_UARTS →
        is_connected cfg6 st (token Kind.usb (NUM_PIO_MIDI_UARTS cfg6 + j)) (token Kind.hw j)
          = some true ∧
        is_connected cfg6 st (token Kind.hw j) (token Kind.usb (NUM_PIO_MIDI_UARTS cfg6 + j))
          = some true) ∧
      (∀ ks i kd j, i < Kind.count cfg6 ks → j < Kind.count cfg6 kd →
        ¬ default_edge cfg6 ks i kd j →
        is_connected cfg6 st (token ks i) (token kd j) = some false) ∧
      (∀ a b, is_connected cfg6 st a b = some true →
        ∃ ks i kd j, a = token ks i ∧ b = token kd j ∧ default_edge cfg6 ks i kd j) :=
  ⟨well_sized_cfg6, C4_default_boot_state cfg6 well_sized_cfg6⟩

/-- C5. In every state and for every pair of tokens for which `is_connected`
returns false, `disconnect` returns false and leaves the whole routing matrix
as it was. -/
theorem C5_disconnect_of_unconnected_pair (cfg : Config) (st : Routes) (i o : Nat)
    (h : is_connected cfg st i o = some false) :
    disconnect cfg st i o = some (st, false) :=
  disconnect_absent cfg st i o h

/-- Witness for C5: after `init_routes` in the 6-cable build, `'1'` is not
connected to `'B'`, and `disconnect('1','B')` fails without changing the
matrix. -/
theorem C5_disconnect_of_unconnected_pair_witness :
    init_routes cfg6 = some (default_routes cfg6) ∧
    is_connected cfg6 (default_routes cfg6) 49 66 = some false ∧
    disconnect cfg6 (default_routes cfg6) 49 66 = some (default_routes cfg6, false) :=
  ⟨rfl, rfl, C5_disconnect_of_unconnected_pair cfg6 (default_routes cfg6) 49 66 rfl⟩

/-- C6. `connect` is idempotent: in every state and for every pair of tokens,
running `connect(in, out)` a second time gives the same matrix and the same
result as the first call (and a call that leaves the tables does so again). -/
theorem C6_connect_idempotent (cfg : Config)
    (hU : cfg.CFG_TUD_MIDI_NUMCABLES_IN ≤ 255) (st : Routes) (i o : Nat) :
    (connect cfg st i o).bind (fun p => connect cfg p.1 i o) = connect cfg st i o := by
  cases h : connect cfg st i o with
  | none => rfl
  | some p =>
    obtain ⟨st2, b⟩ := p
    exact connect_twice cfg hU st i o st2 b h

/-- Witness for C6: `connect('1','B')` twice after `init_routes` in the
6-cable build. -/
theorem C6_connect_idempotent_witness :
    init_routes cfg6 = some (default_routes cfg6) ∧
    cfg6.CFG_TUD_MIDI_NUMCABLES_IN ≤ 255 ∧
    (connect cfg6 (default_routes cfg6) 49 66).bind (fun p => connect cfg6 p.1 49 66)
      = connect cfg6 (default_routes cfg6) 49 66 :=
  ⟨rfl, by decide, C6_connect_idempotent cfg6 (by decide) (default_routes cfg6) 49 66⟩

/-- C7 as the code has it. `is_port_valid` accepts exactly a digit `'1'..'8'`
naming one of the USB cables, one of the first `NUM_PIO_MIDI_UARTS` letters
from `'A'`, and `'G'` and `'H'`, each letter in either case. -/
theorem C7_is_port_valid_documented (cfg : Config) (t : Nat) :
    is_port_valid cfg t = true ↔ documented_valid cfg t :=
  is_port_valid_iff cfg t

/-- C7 as stated fails. With 4 software UARTs and 2 hardware UARTs the
contiguous range of 6 letters is `'A'..'F'`, but `is_port_valid` refuses `'E'`
and accepts `'G'`, which lies outside that range. -/
theorem C7_letters_not_contiguous :
    (contiguous_valid cfg6 69 ∧ is_port_valid cfg6 69 = false) ∧
    (¬ contiguous_valid cfg6 71 ∧ is_port_valid cfg6 71 = true) := by
  refine ⟨⟨?_, rfl⟩, ⟨?_, rfl⟩⟩
  · unfold contiguous_valid toupper NUM_PIO_MIDI_UARTS NUM_HW_MIDI_UARTS cfg6
    simp
  · unfold contiguous_valid toupper NUM_PIO_MIDI_UARTS NUM_HW_MIDI_UARTS cfg6
    simp

/-- C8 (the code breaks it). In the 6-cable build, after connecting source
`'1'` to cables `'1'..'4'`, disconnecting `'3'` and `'1'`, connecting `'5'`
and disconnecting `'2'` (every call returning true), the USB list of source
`'1'` is `['4','4','5','4',0,0]` with live count 2: the live entries hold
cable `'4'` twice. (The other half of the invariant, live count at most the
port count of the kind, does hold in every reachable state:
`counts_bounded_reachable`.) -/
theorem C8_duplicate_live_entry :
    ∃ (s : Routes) (r : midi_input_routes_t),
      boot_run cfg6 [Cmd.connect 49 49, Cmd.connect 49 50, Cmd.connect 49 51,
          Cmd.connect 49 52, Cmd.disconnect 49 51, Cmd.disconnect 49 49,
          Cmd.connect 49 53, Cmd.disconnect 49 50]
        = some (s, [true, true, true, true, true, true, true, true]) ∧
      Reachable cfg6 s ∧
      s.usb_routes[0]? = some r ∧
      r.usb_midi_cable_list = [52, 52, 53, 52, 0, 0] ∧
      r.num_usb_midi_routes = 2 ∧
      live r Kind.usb = [52, 52] ∧
      ¬ (live r Kind.usb).Nodup :=
  ⟨_, _, rfl, boot_run_reachable cfg6
      [Cmd.connect 49 49, Cmd.connect 49 50, Cmd.connect 49 51, Cmd.connect 49 52,
       Cmd.disconnect 49 51, Cmd.disconnect 49 49, Cmd.connect 49 53,
       Cmd.disconnect 49 50] _ _ rfl, rfl, rfl, rfl, rfl, by decide⟩

/-- C9 (the code breaks it). In the 6-cable build, after `connect('A','A')`,
`connect('A','B')`, `disconnect('A','A')`, `connect('A','B')`,
`connect('A','C')`, `connect('A','D')` (all returning true) the software-UART
list of source `'A'` is `[0,'B','C','D']` with live count 4. The next
`connect('A','A')`, on valid tokens, does not find `'A'`, finds the count at
`NUM_PIO_MIDI_UARTS` and returns false: the branch marked "should never
happen" is taken. -/
theorem C9_capacity_branch_reached :
    ∃ (s : Routes) (r : midi_input_routes_t),
      boot_run cfg6 [Cmd.connect 65 65, Cmd.connect 65 66, Cmd.disconnect 65 65,
          Cmd.connect 65 66, Cmd.connect 65 67, Cmd.connect 65 68]
        = some (s, [true, true, true, true, true, true]) ∧
      Reachable cfg6 s ∧
      s.pio_routes[0]? = some r ∧
      r.pio_uart_number_list = [0, 66, 67, 68] ∧
      is_port_valid cfg6 65 = true ∧
      scan r.pio_uart_number_list 65 r.num_pio_uart_routes 0 = some none ∧
      r.num_pio_uart_routes ≥ NUM_PIO_MIDI_UARTS cfg6 ∧
      route cfg6 r 65 = some (r, false) ∧
      connect cfg6 s 65 65 = some (s, false) :=
  ⟨_, _, rfl, boot_run_reachable cfg6
      [Cmd.connect 65 65, Cmd.connect 65 66, Cmd.disconnect 65 65, Cmd.connect 65 66,
       Cmd.connect 65 67, Cmd.connect 65 68] _ _ rfl, rfl, rfl, rfl, rfl, by decide, rfl, rfl⟩

/-- C10. From the state left by `init_routes`, for every input port and every
destination kind: connecting the input to each destination of that kind once,
in any order, returns true every time (the last insertion included);
afterwards `is_connected` is true for every destination of the kind, the live
count of the kind equals the number of its ports, the live entries are exactly
the tokens of the kind, and the lists and counts of the other two kinds are
those `init_routes` left. -/
theorem C10_fill_to_capacity (cfg : Config) (h : well_sized cfg) (ks : Kind) (i : Nat)
    (hi : i < Kind.count cfg ks) (kd : Kind) (ds : List Nat)
    (hperm : ds.Perm (kind_tokens cfg kd)) :
    ∃ st0 st r0 r,
      init_routes cfg = some st0 ∧
      run cfg st0 (ds.map (Cmd.connect (token ks i)))
        = some (st, List.replicate (Kind.count cfg kd) true) ∧
      (table st0 ks)[i]? = some r0 ∧ (table st ks)[i]? = some r ∧
      (∀ d, d ∈ kind_tokens cfg kd → is_connected cfg st (token ks i) d = some true) ∧
      count_of r kd = Kind.count cfg kd ∧
      (live r kd).Perm (kind_tokens cfg kd) ∧
      (∀ k, k ≠ kd → list_of r k = list_of r0 k ∧ count_of r k = count_of r0 k) := by
  have hrow0 := table_default_get cfg ks i hi
  have hok0 := row_default_ok cfg h ks i hi kd
  obtain ⟨st, r, hrun, hrow, hok, hall, _, hoth⟩ :=
    run_fill cfg h ks i hi kd ds (fun d hd => hperm.mem_iff.mp hd)
      (default_routes cfg) (row_default cfg ks i) hrow0 hok0
  obtain ⟨hn, hlen, hnd, hsub⟩ := hok
  have hp : (live r kd).Perm (kind_tokens cfg kd) := by
    rw [List.perm_ext_iff_of_nodup hnd (kind_tokens_nodup cfg kd)]
    intro a
    exact ⟨hsub a, fun ha => hall a (hperm.mem_iff.mpr ha)⟩
  have hcount : count_of r kd = Kind.count cfg kd := by
    have e := hp.length_eq
    unfold live at e
    rw [List.length_take_of_le hn, kind_tokens_length] at e
    exact e
  have hdslen : ds.length = Kind.count cfg kd := by
    rw [hperm.length_eq, kind_tokens_length]
  rw [hdslen] at hrun
  refine ⟨default_routes cfg, st, row_default cfg ks i, r, init_routes_eq cfg h, hrun,
    hrow0, hrow, ?_, hcount, hp, hoth⟩
  intro d hd
  obtain ⟨j, hj, rfl⟩ := (mem_kind_tokens cfg kd d).mp hd
  rw [is_connected_token cfg h ks i hi _ (valid_token cfg h kd j hj)]
  unfold read_index
  rw [hrow]
  simp only [is_routed_token cfg h kd j hj]
  exact is_routed_list_of_mem _ _ _ hn (hp.mem_iff.mpr hd)

/-- Witness for C10: in the 6-cable build, source `'1'` is connected to the
four software UARTs in the order `'D'`, `'A'`, `'C'`, `'B'`. -/
theorem C10_fill_to_capacity_witness :
    well_sized cfg6 ∧ 0 < Kind.count cfg6 Kind.usb ∧
    [68, 65, 67, 66].Perm (kind_tokens cfg6 Kind.pio) ∧
    ∃ st0 st r0 r,
      init_routes cfg6 = some st0 ∧
      run cfg6 st0 ([68, 65, 67, 66].map (Cmd.connect (token Kind.usb 0)))
        = some (st, List.replicate (Kind.count cfg6 Kind.pio) true) ∧
      (table st0 Kind.usb)[0]? = some r0 ∧ (table st Kind.usb)[0]? = some r ∧
      (∀ d, d ∈ kind_tokens cfg6 Kind.pio →
        is_connected cfg6 st (token Kind.usb 0) d = some true) ∧
      count_of r Kind.pio = Kind.count cfg6 Kind.pio ∧
      (live r Kind.pio).Perm (kind_tokens cfg6 Kind.pio) ∧
      (∀ k, k ≠ Kind.pio → list_of r k = list_of r0 k ∧ count_of r k = count_of r0 k) :=
  ⟨well_sized_cfg6, by decide, by decide,
    C10_fill_to_capacity cfg6 well_sized_cfg6 Kind.usb 0 (by decide) Kind.pio
      [68, 65, 67, 66] (by decide)⟩

/-- C11. One dispatch cycle on tables that can be dispatched from, with polls
that respect the buffer size; `new` are the effects of the UART phase, which
`midi_task` runs first with the mount flag it read. Every UART input is polled
and the USB input is not read in that phase; a non-empty chunk delivered by an
input is written to every software-UART and hardware-UART destination of that
input's RouteSet, and to its USB cable destinations exactly when mounted;
every write offers exactly the chunk a poll of this cycle delivered. When not
mounted the cycle ends there (only the transmit paths are serviced): no USB
read and no USB write occur in the whole cycle. When mounted, whatever the USB
phase adds comes after the UART phase and every write in it offers exactly
what a USB read of this cycle delivered; with no USB data pending the cycle
ends after one empty read. -/
theorem C11_mount_gating (ext : Extern) (cfg : Config) (h : well_sized cfg) (st : Routes)
    (hst : dispatch_ok cfg st) (hp : polls_bounded ext) (rx_uart rx_usb : List Nat)
    (h1 : rx_uart.length = 48) (h2 : rx_usb.length = 48) (fuel : Nat) (tr : List Effect) :
    ∃ new,
      poll_midi_uarts_rx ext cfg st (ext.tud_midi_mounted tr) rx_uart tr = some (tr ++ new) ∧
      fans_out cfg st (ext.tud_midi_mounted tr) new ∧
      (∀ idx b, Effect.poll Kind.usb idx b ∉ new) ∧
      (ext.tud_midi_mounted tr = false →
        midi_task ext cfg st rx_uart rx_usb fuel tr
          = some (tr ++ drain_serial_port_tx_buffers cfg new) ∧
        (∀ idx b, Effect.poll Kind.usb idx b ∉ drain_serial_port_tx_buffers cfg new) ∧
        (∀ d c n, Effect.write Kind.usb d c n ∉ drain_serial_port_tx_buffers cfg new)) ∧
      (∀ tr2, midi_task ext cfg st rx_uart rx_usb fuel tr = some tr2 →
        ∃ rest, tr2 = tr ++ new ++ rest ∧
          ∀ kd d c n, Effect.write kd d c n ∈ rest →
            c ≠ [] ∧ ∃ cable r e, Effect.poll Kind.usb cable c ∈ rest ∧
              st.usb_routes[cable % 256]? = some r ∧ e ∈ live r kd ∧
              d = e - Kind.base kd) ∧
      (ext.tud_midi_mounted tr = true → 0 < fuel →
        (ext.tud_midi_demux_stream_read (tr ++ new) 48).2 = [] →
        midi_task ext cfg st rx_uart rx_usb fuel tr
          = some (drain_serial_port_tx_buffers cfg (tr ++ new ++
              [Effect.poll Kind.usb (ext.tud_midi_demux_stream_read (tr ++ new) 48).1 []]))) := by
  obtain ⟨new, hu, hf, hnu⟩ :=
    uart_phase_spec ext cfg h st hst hp (ext.tud_midi_mounted tr) rx_uart h1 tr
  refine ⟨new, hu, hf, hnu, ?_, ?_, ?_⟩
  · intro hm
    refine ⟨?_, ?_, ?_⟩
    · unfold midi_task
      simp only [hu]
      simp only [hm, poll_usb_rx, Bool.not_false, if_true, drain_append]
    · intro idx b hmem
      rcases mem_drain cfg new _ hmem with h3 | ⟨_, _, h3⟩
      · exact hnu idx b h3
      · cases h3
    · intro d c n hmem
      rcases mem_drain cfg new _ hmem with h3 | ⟨_, _, h3⟩
      · have := (hf.2.2 Kind.usb d c n h3).2.1 rfl
        rw [hm] at this
        cases this
      · cases h3
  · intro tr2 hrun
    unfold midi_task at hrun
    simp only [hu] at hrun
    cases hm : ext.tud_midi_mounted tr with
    | false =>
      simp only [hm, poll_usb_rx, Bool.not_false, if_true, Option.some.injEq] at hrun
      refine ⟨drain_serial_port_tx_buffers cfg [], ?_, ?_⟩
      · rw [← hrun, ← drain_append, List.append_nil]
      · intro kd d c n hmem
        rcases mem_drain cfg [] _ hmem with h3 | ⟨_, _, h3⟩
        · simp at h3
        · cases h3
    | true =>
      simp only [hm, poll_usb_rx, Bool.not_true, Bool.false_eq_true, if_false] at hrun
      cases hl : usb_read_loop ext cfg st true fuel rx_usb (tr ++ new) with
      | none => simp [hl] at hrun
      | some tr3 =>
        simp only [hl, Option.some.injEq] at hrun
        obtain ⟨un, hun, hW⟩ :=
          usb_read_loop_sound ext cfg h st hst hp true fuel rx_usb (tr ++ new) tr3 h2 hl
        refine ⟨drain_serial_port_tx_buffers cfg un, ?_, ?_⟩
        · rw [← hrun, hun, drain_append]
        · intro kd d c n hmem
          rcases mem_drain cfg un _ hmem with h3 | ⟨_, _, h3⟩
          · obtain ⟨a1, cb, r, e, a2, a3, a4, a5⟩ := hW kd d c n h3
            refine ⟨a1, cb, r, e, ?_, a3, a4, a5⟩
            unfold drain_serial_port_tx_buffers
            exact List.mem_append_left _ (List.mem_append_left _ a2)
          · cases h3
  · intro hm hfuel hempty
    obtain ⟨f, rfl⟩ : ∃ f, fuel = f + 1 := ⟨fuel - 1, by omega⟩
    unfold midi_task
    simp only [hu]
    simp only [hm, poll_usb_rx, Bool.not_true, Bool.false_eq_true, if_false]
    rw [usb_read_loop]
    simp only [h2, hempty, fill, List.length_nil, Nat.zero_le, if_true, List.drop_zero,
      List.nil_append, Nat.zero_mod, gt_iff_lt, Nat.lt_irrefl, if_false]

/-- Witness for C11: the state left by `init_routes` in the 6-cable build,
zero-filled receive buffers, an empty history and one unit of fuel, once with
the USB MIDI interface not mounted and once with it mounted. -/
theorem C11_mount_gating_witness :
    well_sized cfg6 ∧ dispatch_ok cfg6 (default_routes cfg6) ∧
    polls_bounded ext_idle ∧ polls_bounded ext_host ∧ rx_zero.length = 48 ∧
    (∃ new,
      poll_midi_uarts_rx ext_idle cfg6 (default_routes cfg6) (ext_idle.tud_midi_mounted [])
        rx_zero [] = some ([] ++ new) ∧
      fans_out cfg6 (default_routes cfg6) (ext_idle.tud_midi_mounted []) new ∧
      (∀ idx b, Effect.poll Kind.usb idx b ∉ new) ∧
      (ext_idle.tud_midi_mounted [] = false →
        midi_task ext_idle cfg6 (default_routes cfg6) rx_zero rx_zero 1 []
          = some ([] ++ drain_serial_port_tx_buffers cfg6 new) ∧
        (∀ idx b, Effect.poll Kind.usb idx b ∉ drain_serial_port_tx_buffers cfg6 new) ∧
        (∀ d c n, Effect.write Kind.usb d c n ∉ drain_serial_port_tx_buffers cfg6 new)) ∧
      (∀ tr2, midi_task ext_idle cfg6 (default_routes cfg6) rx_zero rx_zero 1 [] = some tr2 →
        ∃ rest, tr2 = [] ++ new ++ rest ∧
          ∀ kd d c n, Effect.write kd d c n ∈ rest →
            c ≠ [] ∧ ∃ cable r e, Effect.poll Kind.usb cable c ∈ rest ∧
              (default_routes cfg6).usb_routes[cable % 256]? = some r ∧ e ∈ live r kd ∧
              d = e - Kind.base kd) ∧
      (ext_idle.tud_midi_mounted [] = true → 0 < 1 →
        (ext_idle.tud_midi_demux_stream_read ([] ++ new) 48).2 = [] →
        midi_task ext_idle cfg6 (default_routes cfg6) rx_zero rx_zero 1 []
          = some (drain_serial_port_tx_buffers cfg6 ([] ++ new ++
              [Effect.poll Kind.usb
                (ext_idle.tud_midi_demux_stream_read ([] ++ new) 48).1 []])))) ∧
    (∃ new,
      poll_midi_uarts_rx ext_host cfg6 (default_routes cfg6) (ext_host.tud_midi_mounted [])
        rx_zero [] = some ([] ++ new) ∧
      fans_out cfg6 (default_routes cfg6) (ext_host.tud_midi_mounted []) new ∧
      (∀ idx b, Effect.poll Kind.usb idx b ∉ new) ∧
      (ext_host.tud_midi_mounted [] = false →
        midi_task ext_host cfg6 (default_routes cfg6) rx_zero rx_zero 1 []
          = some ([] ++ drain_serial_port_tx_buffers cfg6 new) ∧
        (∀ idx b, Effect.poll Kind.usb idx b ∉ drain_serial_port_tx_buffers cfg6 new) ∧
        (∀ d c n, Effect.write Kind.usb d c n ∉ drain_serial_port_tx_buffers cfg6 new)) ∧
      (∀ tr2, midi_task ext_host cfg6 (default_routes cfg6) rx_zero rx_zero 1 [] = some tr2 →
        ∃ rest, tr2 = [] ++ new ++ rest ∧
          ∀ kd d c n, Effect.write kd d c n ∈ rest →
            c ≠ [] ∧ ∃ cable r e, Effect.poll Kind.usb cable c ∈ rest ∧
              (default_routes cfg6).usb_routes[cable % 256]? = some r ∧ e ∈ live r kd ∧
              d = e - Kind.base kd) ∧
      (ext_host.tud_midi_mounted [] = true → 0 < 1 →
        (ext_host.tud_midi_demux_stream_read ([] ++ new) 48).2 = [] →
        midi_task ext_host cfg6 (default_routes cfg6) rx_zero rx_zero 1 []
          = some (drain_serial_port_tx_buffers cfg6 ([] ++ new ++
              [Effect.poll Kind.usb
                (ext_host.tud_midi_demux_stream_read ([] ++ new) 48).1 []])))) :=
  ⟨well_sized_cfg6, default_dispatch_ok cfg6 well_sized_cfg6, polls_bounded_idle,
    polls_bounded_host, by decide,
    C11_mount_gating ext_idle cfg6 well_sized_cfg6 (default_routes cfg6)
      (default_dispatch_ok cfg6 well_sized_cfg6) polls_bounded_idle
      rx_zero rx_zero (by decide) (by decide) 1 [],
    C11_mount_gating ext_host cfg6 well_sized_cfg6 (default_routes cfg6)
      (default_dispatch_ok cfg6 well_sized_cfg6) polls_bounded_host
      rx_zero rx_zero (by decide) (by decide) 1 []⟩

/-- C12. For a RouteSet whose live entries are port tokens without
duplicates, and a non-empty chunk of `nread` bytes (the first `nread` bytes of
the receive buffer), `send_to_connected` produces exactly the effects of the
specified fan-out policy. Every destination of the RouteSet (the USB cables
only when mounted) gets exactly one write attempt, which offers the whole
chunk; when that write takes `n < nread` bytes there is exactly one drop
report for the destination and it reports `nread - n` bytes, and when it takes
all bytes there is none; no other output is written to. -/
theorem C12_fan_out_drop_policy (ext : Extern) (cfg : Config) (h : well_sized cfg)
    (r : midi_input_routes_t) (hr : ∀ k, row_in_range cfg r k)
    (hnd : ∀ k, (live r k).Nodup) (rx : List Nat) (nread : Nat) (h0 : 0 < nread)
    (hn : nread ≤ rx.length) (h8 : nread ≤ 255) (connected : Bool) (tr : List Effect) :
    ∃ new, send_to_connected ext cfg r rx nread connected tr = some (tr ++ new) ∧
      tr ++ new = fan_out ext (rx.take nread) (gated_dests connected r) tr ∧
      (rx.take nread).length = nread ∧
      (∀ k e, (k = Kind.usb → connected = true) → e ∈ live r k →
        ∃ n, writes_to k (e - Kind.base k) new = [(rx.take nread, n)] ∧
          (n < nread → drops_for e new = [nread - n]) ∧
          (n = nread → drops_for e new = [])) ∧
      (∀ k d, (∀ e, (k = Kind.usb → connected = true) → e ∈ live r k →
          e - Kind.base k ≠ d) → writes_to k d new = []) := by
  have hL : (rx.take nread).length = nread := List.length_take_of_le hn
  obtain ⟨new, hnew, hA, _, hC, _, _⟩ :=
    fan_out_spec ext (rx.take nread) (gated_dests connected r) tr
  have hbase : ∀ p, p ∈ gated_dests connected r → Kind.base p.1 ≤ p.2 := by
    intro p hp
    obtain ⟨k, e⟩ := p
    have he := ((mem_gated_dests connected r k e).mp hp).2
    exact (dest_index_token cfg h k e ((hr k).2 e he)).2
  refine ⟨new, ?_, hnew.symm, hL, ?_, ?_⟩
  · rw [send_to_connected_eq ext cfg h r hr rx nread h0 hn connected tr, hnew]
  · intro k e hg he
    obtain ⟨n, hw, hd⟩ := hC (gated_ports_nodup cfg h connected r hr hnd) hbase (k, e)
      ((mem_gated_dests connected r k e).mpr ⟨hg, he⟩)
    rw [hL] at hd
    refine ⟨n, hw, ?_, ?_⟩
    · intro hlt
      have hne : n ≠ nread := by omega
      rw [hd, if_pos hne, dropped_count_short nread n h8 hlt]
    · intro heq
      rw [hd, if_neg (by simpa using heq)]
  · intro k d hno
    apply hA
    intro p hp hc
    obtain ⟨k2, e⟩ := p
    obtain ⟨hg, he⟩ := (mem_gated_dests connected r k2 e).mp hp
    obtain ⟨hk, hd⟩ := hc
    simp only at hk hd
    subst hk
    exact hno e hg he hd

/-- Witness for C12: in the 6-cable build, the RouteSet `init_routes` gives
software UART 0 (one destination, USB cable 0), mounted, a three-byte chunk,
and transmit paths that take two bytes. -/
theorem C12_fan_out_drop_policy_witness :
    well_sized cfg6 ∧
    (∀ k, row_in_range cfg6 (row_default cfg6 Kind.pio 0) k) ∧
    (∀ k, (live (row_default cfg6 Kind.pio 0) k).Nodup) ∧
    0 < 3 ∧ 3 ≤ [144, 60, 100, 7, 7].length ∧ 3 ≤ 255 ∧
    ∃ new, send_to_connected ext_host cfg6 (row_default cfg6 Kind.pio 0)
        [144, 60, 100, 7, 7] 3 true [] = some ([] ++ new) ∧
      [] ++ new = fan_out ext_host ([144, 60, 100, 7, 7].take 3)
        (gated_dests true (row_default cfg6 Kind.pio 0)) [] ∧
      ([144, 60, 100, 7, 7].take 3).length = 3 ∧
      (∀ k e, (k = Kind.usb → true = true) → e ∈ live (row_default cfg6 Kind.pio 0) k →
        ∃ n, writes_to k (e - Kind.base k) new = [([144, 60, 100, 7, 7].take 3, n)] ∧
          (n < 3 → drops_for e new = [3 - n]) ∧
          (n = 3 → drops_for e new = [])) ∧
      (∀ k d, (∀ e, (k = Kind.usb → true = true) →
          e ∈ live (row_default cfg6 Kind.pio 0) k → e - Kind.base k ≠ d) →
        writes_to k d new = []) :=
  ⟨well_sized_cfg6,
    fun k => row_ok_in_range _ _ _
      (row_default_ok cfg6 well_sized_cfg6 Kind.pio 0 (by decide) k),
    fun k => (row_default_ok cfg6 well_sized_cfg6 Kind.pio 0 (by decide) k).2.2.1,
    by decide, by decide, by decide,
    C12_fan_out_drop_policy ext_host cfg6 well_sized_cfg6 (row_default cfg6 Kind.pio 0)
      (fun k => row_ok_in_range _ _ _
        (row_default_ok cfg6 well_sized_cfg6 Kind.pio 0 (by decide) k))
      (fun k => (row_default_ok cfg6 well_sized_cfg6 Kind.pio 0 (by decide) k).2.2.1)
      [144, 60, 100, 7, 7] 3 (by decide) (by decide) (by decide) true []⟩

/-- C13. When at least one of the two tokens fails `is_port_valid`, `connect`
and `disconnect` return false and leave the routing matrix as it was, and
`is_connected` (which never changes the matrix) returns false. -/
theorem C13_invalid_tokens_rejected (cfg : Config) (st : Routes) (i o : Nat)
    (h : is_port_valid cfg i = false ∨ is_port_valid cfg o = false) :
    connect cfg st i o = some (st, false) ∧
    disconnect cfg st i o = some (st, false) ∧
    is_connected cfg st i o = some false := by
  have hv : (is_port_valid cfg i && is_port_valid cfg o) = false := by
    rcases h with h | h <;> simp [h]
  refine ⟨?_, ?_, ?_⟩
  · unfold connect
    simp [hv]
  · unfold disconnect
    simp [hv]
  · unfold is_connected
    simp [hv]

/-- Witness for C13: in the 6-cable build after `init_routes`, the source
token `'9'` is invalid. -/
theorem C13_invalid_tokens_rejected_witness :
    (is_port_valid cfg6 57 = false ∨ is_port_valid cfg6 65 = false) ∧
    connect cfg6 (default_routes cfg6) 57 65 = some (default_routes cfg6, false) ∧
    disconnect cfg6 (default_routes cfg6) 57 65 = some (default_routes cfg6, false) ∧
    is_connected cfg6 (default_routes cfg6) 57 65 = some false :=
  ⟨Or.inl rfl, C13_invalid_tokens_rejected cfg6 (default_routes cfg6) 57 65 (Or.inl rfl)⟩

end MidiRouter
